import Mathlib

/-!
Shallow embedding of the JSON-repair core of `src/app1.py`: `extract_json`
(lines 154-197), `validate_and_fix_json` (lines 200-256) and the
extraction/validation/fallback composition inside `generate_json`
(lines 274-350).

Modelling conventions:
* a value produced by Python's `json.loads` is a `JVal`;
* Python `float` is modelled as an exact rational (`ℚ`) — arithmetic on it
  (`%`, `*`, `abs`) is exact instead of IEEE-754 rounded;
* a Python `dict` is an insertion-ordered association list; `d[k] = v`
  updates the first entry with key `k` in place and otherwise appends,
  exactly like CPython;
* Python exceptions (`TypeError`, `AttributeError`, `KeyError`) are an
  explicit error monad `Except PyErr`;
* all definitions are structural (fuel-based where the source recursion is
  not obviously structural), so concrete runs reduce inside the kernel.
-/

namespace App1

/-- A value produced by Python's `json.loads`: `None`, `bool`, `int`,
`float` (modelled as an exact rational), `str`, `list`, `dict`. -/
inductive JVal where
  | null
  | bool (b : Bool)
  | int (n : ℤ)
  | float (q : ℚ)
  | str (s : String)
  | arr (xs : List JVal)
  | obj (kvs : List (String × JVal))

/-- Python exceptions raisable by the code under test. -/
inductive PyErr where
  | typeError
  | attributeError
  | keyError
deriving DecidableEq

/-! ### Python `dict` primitives (insertion-ordered association lists) -/

/-- `d.get(k)` / `d[k]` lookup: the first (only, in real dicts) binding. -/
def dget : List (String × JVal) → String → Option JVal
  | [], _ => none
  | (k', v') :: rest, k => if k' = k then some v' else dget rest k

/-- `k in d`: key membership. -/
def dhas (kvs : List (String × JVal)) (k : String) : Bool :=
  (dget kvs k).isSome

/-- `d[k] = v`: update the existing binding in place, else append. -/
def dset : List (String × JVal) → String → JVal → List (String × JVal)
  | [], k, v => [(k, v)]
  | (k', v') :: rest, k, v =>
    if k' = k then (k', v) :: rest else (k', v') :: dset rest k v

/-- `del d[k]`: remove the binding of `k`. -/
def ddel : List (String × JVal) → String → List (String × JVal)
  | [], _ => []
  | (k', v') :: rest, k => if k' = k then rest else (k', v') :: ddel rest k

/-! ### Python `==`, `str()` and friends -/

/-- The numeric value of a Python number (`bool` is a subclass of `int`,
so `True == 1` and `False == 0`). -/
def pyNumQ : JVal → Option ℚ
  | .int n => some (n : ℚ)
  | .float q => some q
  | .bool b => some (if b then 1 else 0)
  | _ => none

mutual

/-- Python `==` on parsed-JSON values.  Cross-type numeric equality follows
CPython (`1 == 1.0 == True`); lists compare pointwise, dicts by keys. -/
def pyEq : JVal → JVal → Bool
  | .null, .null => true
  | .str x, .str y => x == y
  | .arr xs, .arr ys => pyEqList xs ys
  | .obj xs, .obj ys => xs.length == ys.length && pyEqObjSub xs ys
  | a, b =>
    match pyNumQ a, pyNumQ b with
    | some q, some r => q == r
    | _, _ => false

/-- Python `==` on lists (same length, pointwise `==`). -/
def pyEqList : List JVal → List JVal → Bool
  | [], [] => true
  | x :: xs, y :: ys => pyEq x y && pyEqList xs ys
  | _, _ => false

/-- Every key of the first dict is bound to a `==`-equal value in the
second (with equal sizes this is CPython dict equality). -/
def pyEqObjSub : List (String × JVal) → List (String × JVal) → Bool
  | [], _ => true
  | (k, v) :: rest, ys =>
    (match dget ys k with
     | some w => pyEq v w
     | none => false) && pyEqObjSub rest ys

end

/-- Rendering of a Python `float` inside an f-string.  The decimal repr of
CPython is modelled by a deterministic rendering of the rational; no claim
depends on the exact text. -/
def ratRepr (q : ℚ) : String :=
  if q.den = 1 then toString q.num ++ ".0"
  else toString q.num ++ "/" ++ toString q.den

mutual

/-- Modelled Python `repr()` of a parsed-JSON value (container rendering
is a deterministic approximation of CPython; only strings and ints — the
cases the claims exercise — are rendered exactly). -/
def pyReprJ : JVal → String
  | .null => "None"
  | .bool true => "True"
  | .bool false => "False"
  | .int n => toString n
  | .float q => ratRepr q
  | .str s => "\x27" ++ s ++ "\x27"
  | .arr xs => "[" ++ pyReprList xs ++ "]"
  | .obj kvs => "\x7b" ++ pyReprKVs kvs ++ "\x7d"

/-- Comma-separated reprs of list elements. -/
def pyReprList : List JVal → String
  | [] => ""
  | [x] => pyReprJ x
  | x :: y :: rest => pyReprJ x ++ ", " ++ pyReprList (y :: rest)

/-- Comma-separated reprs of dict entries. -/
def pyReprKVs : List (String × JVal) → String
  | [] => ""
  | [kv] => "\x27" ++ kv.1 ++ "\x27: " ++ pyReprJ kv.2
  | kv :: kw :: rest =>
    "\x27" ++ kv.1 ++ "\x27: " ++ pyReprJ kv.2 ++ ", " ++ pyReprKVs (kw :: rest)

end

/-- Python `str()` of a parsed-JSON value, as interpolated by f-strings
(`str` renders as itself, everything else as its repr). -/
def pyStr : JVal → String
  | .str s => s
  | v => pyReprJ v

/-! ### Python container operations raising real exceptions -/

/-- Is `x.data` a contiguous substring of `y.data`?  (Python `in` on
strings.) -/
def substrB : List Char → List Char → Bool
  | needle, hay =>
    needle.isPrefixOf hay ||
      match hay with
      | [] => false
      | _ :: t => substrB needle t

/-- Python `needle in container` for a string needle: key test on dicts,
element test on lists, substring test on strings, `TypeError` otherwise. -/
def pyContains : JVal → String → Except PyErr Bool
  | .obj kvs, k => .ok (dhas kvs k)
  | .arr xs, k => .ok (xs.any fun x => pyEq x (.str k))
  | .str s, k => .ok (substrB k.data s.data)
  | _, _ => .error .typeError

/-- Python `container[k]` for a string subscript: dict lookup
(`KeyError` when absent), `TypeError` on anything else. -/
def pyGetItem : JVal → String → Except PyErr JVal
  | .obj kvs, k =>
    match dget kvs k with
    | some v => .ok v
    | none => .error .keyError
  | _, _ => .error .typeError

/-- Python `container[k] = v`: only dicts accept a string subscript. -/
def pySetItem : JVal → String → JVal → Except PyErr JVal
  | .obj kvs, k, v => .ok (.obj (dset kvs k v))
  | _, _, _ => .error .typeError

/-- Python `del container[k]`: only dicts accept a string subscript. -/
def pyDelItem : JVal → String → Except PyErr JVal
  | .obj kvs, k =>
    if dhas kvs k then .ok (.obj (ddel kvs k)) else .error .keyError
  | _, _ => .error .typeError

/-- Python `container.get(k, default)`: a `dict` method — any other value
raises `AttributeError`. -/
def pyGetD : JVal → String → JVal → Except PyErr JVal
  | .obj kvs, k, dflt => .ok ((dget kvs k).getD dflt)
  | _, _, _ => .error .attributeError

/-- Python iteration `for x in container`: list elements, string
characters (as 1-char strings), dict keys; `TypeError` otherwise. -/
def pyIterElems : JVal → Except PyErr (List JVal)
  | .arr xs => .ok xs
  | .str s => .ok (s.data.map fun c => .str (String.mk [c]))
  | .obj kvs => .ok (kvs.map fun kv => .str kv.1)
  | _ => .error .typeError

/-- Python `v * 1_000_000` (int/float/bool multiply; str/list repeat;
`TypeError` otherwise). -/
def pyMul1e6 : JVal → Except PyErr JVal
  | .int m => .ok (.int (m * 1000000))
  | .float q => .ok (.float (q * 1000000))
  | .bool b => .ok (.int ((if b then (1 : ℤ) else 0) * 1000000))
  | .str s => .ok (.str (String.join (List.replicate 1000000 s)))
  | .arr xs => .ok (.arr (List.flatten (List.replicate 1000000 xs)))
  | _ => .error .typeError

/-- Python `abs(v)`: numbers only. -/
def pyAbs : JVal → Except PyErr JVal
  | .int m => .ok (.int |m|)
  | .float q => .ok (.float |q|)
  | .bool b => .ok (.int (if b then 1 else 0))
  | _ => .error .typeError

/-- `isinstance(v, int)` — `bool` is a subclass of `int` in Python. -/
def isInstInt : JVal → Bool
  | .int _ => true
  | .bool _ => true
  | _ => false

/-- `isinstance(v, (int, float))`, returning the numeric value. -/
def jnumToQ : JVal → Option ℚ := pyNumQ

/-- Python `q % 360` on a real number: `q - 360 * (q / 360).floor`
(floor-division semantics, result in `[0, 360)`). -/
def pyMod360 (q : ℚ) : ℚ := q - 360 * (⌊q / 360⌋ : ℚ)

/-- `min([0, 90, 180, 270], key=lambda x: abs(x - normalized))`: first
element with strictly smallest key wins, so exact ties go to the smaller
(earlier) value. -/
def closestRotation (nq : ℚ) : ℤ :=
  [(0 : ℤ), 90, 180, 270].foldl
    (fun (best x : ℤ) =>
      if |(x : ℚ) - nq| < |(best : ℚ) - nq| then x else best) 0

/-- `rotation not in [0, 90, 180, 270]` (Python `in` uses `==`). -/
def pyInRotList (v : JVal) : Bool :=
  [(0 : ℤ), 90, 180, 270].any fun k => pyEq v (.int k)

/-! ### The per-type counters of `validate_and_fix_json` -/

/-- Keys of `type_counters` are arbitrary hashable Python values. -/
def hashable : JVal → Bool
  | .arr _ => false
  | .obj _ => false
  | _ => true

/-- `type_counters.get(comp_type, 0)` (lookup is by Python `==`). -/
def countersGetN (st : List (JVal × Nat)) (k : JVal) : Nat :=
  match st with
  | [] => 0
  | e :: rest => if pyEq e.1 k then e.2 else countersGetN rest k

/-- `type_counters[comp_type] = n` (first `==`-equal key updated in place,
retaining the originally inserted key object, else appended). -/
def countersSet (st : List (JVal × Nat)) (k : JVal) (n : Nat) :
    List (JVal × Nat) :=
  match st with
  | [] => [(k, n)]
  | e :: rest =>
    if pyEq e.1 k then (e.1, n) :: rest else e :: countersSet rest k n

/-! ### `validate_and_fix_json` (src/app1.py lines 200-256) -/

/-- `component.get("type", "unknown")` for a dict component. -/
def compTypeOf (kvs : List (String × JVal)) : JVal :=
  (dget kvs "type").getD (.str "unknown")

/-- `expected_id = f"{comp_type}_{type_counters[comp_type]}"`. -/
def expectedIdOf (st : List (JVal × Nat)) (kvs : List (String × JVal)) :
    String :=
  pyStr (compTypeOf kvs) ++ "_" ++ toString (countersGetN st (compTypeOf kvs) + 1)

/-- Lines 221-224: overwrite a differing id with the expected one. -/
def idFixKvs (st : List (JVal × Nat)) (kvs : List (String × JVal)) :
    List (String × JVal) :=
  if pyEq ((dget kvs "id").getD .null) (.str (expectedIdOf st kvs)) then kvs
  else dset kvs "id" (.str (expectedIdOf st kvs))

/-- The log entries produced by lines 221-224. -/
def idFixIss (st : List (JVal × Nat)) (kvs : List (String × JVal)) :
    List String :=
  if pyEq ((dget kvs "id").getD .null) (.str (expectedIdOf st kvs)) then []
  else ["Fixed ID: " ++ pyStr ((dget kvs "id").getD (.str "none")) ++ " → " ++
        expectedIdOf st kvs]

/-- Lines 228-230: strip the calculated field `alpha_deg`. -/
def fixAlpha (cid : String) (p : JVal) : Except PyErr (JVal × List String) :=
  match pyContains p "alpha_deg" with
  | .error e => .error e
  | .ok true =>
    match pyDelItem p "alpha_deg" with
    | .error e => .error e
    | .ok p' => .ok (p', ["Removed alpha_deg from " ++ cid])
  | .ok false => .ok (p, [])

/-- Lines 233-241: snap out-of-range numeric rotations to the nearest of
`[0, 90, 180, 270]`; non-numeric rotations pass through untouched. -/
def fixRotation (cid : String) (p : JVal) :
    Except PyErr (JVal × List String) :=
  match pyContains p "component_rotated" with
  | .error e => .error e
  | .ok false => .ok (p, [])
  | .ok true =>
    match pyGetItem p "component_rotated" with
    | .error e => .error e
    | .ok rotation =>
      if !isInstInt rotation || !pyInRotList rotation then
        match jnumToQ rotation with
        | some q =>
          let closest := closestRotation (pyMod360 q)
          match pySetItem p "component_rotated" (.int closest) with
          | .error e => .error e
          | .ok p' =>
            .ok (p', ["Fixed rotation in " ++ cid ++ ": " ++ pyStr rotation ++
                      " → " ++ toString closest])
        | none => .ok (p, [])
      else .ok (p, [])

/-- Lines 245-249: migrate the legacy `f_m` key to `f_um` via
`abs(f_m * 1_000_000)`. -/
def fixFm (cid : String) (p : JVal) : Except PyErr (JVal × List String) :=
  match pyContains p "f_m" with
  | .error e => .error e
  | .ok false => .ok (p, [])
  | .ok true =>
    match pyGetItem p "f_m" with
    | .error e => .error e
    | .ok f_m =>
      match pyMul1e6 f_m with
      | .error e => .error e
      | .ok prod =>
        match pyAbs prod with
        | .error e => .error e
        | .ok v =>
          match pySetItem p "f_um" v with
          | .error e => .error e
          | .ok p1 =>
            match pyDelItem p1 "f_m" with
            | .error e => .error e
            | .ok p2 => .ok (p2, ["Converted f_m to f_um in " ++ cid])

/-- Lines 251-254: rename a legacy `type` param to `lensType` when the
canonical key is absent. -/
def fixLensType (cid : String) (p : JVal) :
    Except PyErr (JVal × List String) :=
  match pyContains p "type" with
  | .error e => .error e
  | .ok false => .ok (p, [])
  | .ok true =>
    match pyContains p "lensType" with
    | .error e => .error e
    | .ok true => .ok (p, [])
    | .ok false =>
      match pyGetItem p "type" with
      | .error e => .error e
      | .ok tv =>
        match pySetItem p "lensType" tv with
        | .error e => .error e
        | .ok p1 =>
          match pyDelItem p1 "type" with
          | .error e => .error e
          | .ok p2 =>
            .ok (p2, ["Renamed \x27type\x27 to \x27lensType\x27 in " ++ cid])

/-- Lines 244-254: the `comp_type == "lens"` block. -/
def fixLens (comp_type : JVal) (cid : String) (p : JVal) :
    Except PyErr (JVal × List String) :=
  if pyEq comp_type (.str "lens") then
    match fixFm cid p with
    | .error e => .error e
    | .ok (p1, a) =>
      match fixLensType cid p1 with
      | .error e => .error e
      | .ok (p2, b) => .ok (p2, a ++ b)
  else .ok (p, [])

/-- Lines 227-254: the whole `if "params" in component` body, acting on
the params value. -/
def fixParams (comp_type : JVal) (cid : String) (p : JVal) :
    Except PyErr (JVal × List String) :=
  match fixAlpha cid p with
  | .error e => .error e
  | .ok (p1, a) =>
    match fixRotation cid p1 with
    | .error e => .error e
    | .ok (p2, b) =>
      match fixLens comp_type cid p2 with
      | .error e => .error e
      | .ok (p3, c) => .ok (p3, a ++ b ++ c)

/-- One iteration of the `for component in json_data["components"]` loop
(lines 214-254).  A non-dict component raises `AttributeError` at
`component.get`; an unhashable `comp_type` raises `TypeError` at the
counter lookup. -/
def processComponent (st : List (JVal × Nat)) (component : JVal) :
    Except PyErr (JVal × List (JVal × Nat) × List String) :=
  match component with
  | .obj kvs =>
    if hashable (compTypeOf kvs) then
      let st' := countersSet st (compTypeOf kvs)
        (countersGetN st (compTypeOf kvs) + 1)
      let c1 := idFixKvs st kvs
      let iss1 := idFixIss st kvs
      if dhas c1 "params" then
        match fixParams (compTypeOf kvs) (expectedIdOf st kvs)
            ((dget c1 "params").getD .null) with
        | .error e => .error e
        | .ok (p', iss2) =>
          .ok (.obj (dset c1 "params" p'), st', iss1 ++ iss2)
      else .ok (.obj c1, st', iss1)
    else .error .typeError
  | _ => .error .attributeError

/-- The whole loop, threading the counters and accumulating issues. -/
def processComponents (st : List (JVal × Nat)) :
    List JVal → Except PyErr (List JVal × List String)
  | [] => .ok ([], [])
  | c :: rest =>
    match processComponent st c with
    | .error e => .error e
    | .ok (c', st', iss) =>
      match processComponents st' rest with
      | .error e => .error e
      | .ok (rest', iss') => .ok (c' :: rest', iss ++ iss')

/-- Lines 207-209: `if "components" not in json_data: json_data["components"] = []`,
logging the insertion. -/
def ensureComponents (json_data : JVal) (hasC : Bool) :
    Except PyErr (JVal × List String) :=
  if hasC then .ok (json_data, [])
  else
    match pySetItem json_data "components" (.arr []) with
    | .error e => .error e
    | .ok j => .ok (j, ["Added missing \x27components\x27 array"])

/-- `validate_and_fix_json` (lines 200-256).  Returns `(None, issues)` when
the `laser` root is missing, the mutated document plus issues otherwise;
exceptions escape to the caller.  In-place element mutation is modelled by
writing the processed component list back into the `components` slot. -/
def validate_and_fix_json (json_data : JVal) :
    Except PyErr (Option JVal × List String) :=
  match pyContains json_data "laser" with
  | .error e => .error e
  | .ok false => .ok (none, ["Missing \x27laser\x27 root object"])
  | .ok true =>
    match pyContains json_data "components" with
    | .error e => .error e
    | .ok hasC =>
      match ensureComponents json_data hasC with
      | .error e => .error e
      | .ok (j1, iss0) =>
        match pyGetD j1 "components" (.arr []) with
        | .error e => .error e
        | .ok comps =>
          match comps with
          | .arr xs =>
            match processComponents [] xs with
            | .error e => .error e
            | .ok (xs', iss1) =>
              match pySetItem j1 "components" (.arr xs') with
              | .error e => .error e
              | .ok j2 => .ok (some j2, iss0 ++ iss1)
          | other =>
            match pyIterElems other with
            | .error e => .error e
            | .ok elems =>
              match processComponents [] elems with
              | .error e => .error e
              | .ok _ => .ok (some j1, iss0)

/-! ### `json.loads` (Python standard library)

A faithful model of CPython's strict JSON decoder on the RFC 8259 grammar:
four whitespace characters, strict number syntax (no leading zeros, `int`
for integer literals, `float` otherwise — modelled exactly, without IEEE
rounding), escapes incl. `\uXXXX` with surrogate pairs, duplicate object
keys resolved last-value-wins at the first key position.  Not modelled
(no claim touches them): the non-standard `NaN`/`Infinity` literals and
lone surrogates in strings. -/

/-- The four JSON whitespace characters. -/
def jsonWsChar (c : Char) : Bool :=
  c == ' ' || c == '\t' || c == '\n' || c == '\r'

/-- Drop leading JSON whitespace. -/
def skipWs : List Char → List Char
  | c :: cs => if jsonWsChar c then skipWs cs else c :: cs
  | [] => []

/-- An ASCII digit. -/
def isDigitC (c : Char) : Bool := '0' ≤ c && c ≤ '9'

/-- Split a maximal run of digits off the front. -/
def takeDigits : List Char → List Char × List Char
  | c :: cs =>
    if isDigitC c then
      let (ds, r) := takeDigits cs
      (c :: ds, r)
    else ([], c :: cs)
  | [] => ([], [])

/-- Decimal value of a digit run. -/
def digitsToNat (ds : List Char) : Nat :=
  ds.foldl (fun acc c => acc * 10 + (c.toNat - 48)) 0

/-- The opening-brace character (`0x7b`). -/
def lbraceC : Char := Char.ofNat 123

/-- The closing-brace character (`0x7d`). -/
def rbraceC : Char := Char.ofNat 125

/-- The exponent/fraction tail of a JSON number; decides `int` vs
`float` exactly as CPython does (any `.` or exponent makes a float). -/
def parseNumTail (neg : Bool) (ip : Nat) (s : List Char) :
    Option (JVal × List Char) :=
  let (fds, s1) :=
    match s with
    | c :: r => if c == '.' then takeDigits r else ([], s)
    | [] => ([], s)
  let hasFrac : Bool := !fds.isEmpty
  let fracBad : Bool :=
    match s with
    | c :: _ => c == '.' && fds.isEmpty
    | [] => false
  let (hasExp, expBad, ev, s2) :
      Bool × Bool × ℤ × List Char :=
    match s1 with
    | c :: r =>
      if c == 'e' || c == 'E' then
        let (esgn, r1) : ℤ × List Char :=
          match r with
          | d :: r' =>
            if d == '+' then (1, r')
            else if d == '-' then (-1, r')
            else (1, r)
          | [] => (1, r)
        let (eds, r2) := takeDigits r1
        (true, eds.isEmpty, esgn * (digitsToNat eds : ℤ), r2)
      else (false, false, 0, s1)
    | [] => (false, false, 0, s1)
  if fracBad || expBad then none
  else if !hasFrac && !hasExp then
    some (.int (if neg then -(ip : ℤ) else (ip : ℤ)), s1)
  else
    let mant : ℚ := (ip : ℚ) + (digitsToNat fds : ℚ) / (10 : ℚ) ^ fds.length
    let mag : ℚ := mant * (10 : ℚ) ^ ev
    some (.float (if neg then -mag else mag), s2)

/-- A JSON number (strict grammar: optional `-`, `0 | [1-9][0-9]*`,
optional fraction, optional exponent). -/
def parseNumberJ (s : List Char) : Option (JVal × List Char) :=
  let (neg, s1) :=
    match s with
    | c :: r => if c == '-' then (true, r) else (false, s)
    | [] => (false, s)
  match s1 with
  | [] => none
  | c :: r =>
    if c == '0' then parseNumTail neg 0 r
    else if isDigitC c then
      let (ds, r2) := takeDigits r
      parseNumTail neg (digitsToNat (c :: ds)) r2
    else none

/-- Value of a hex digit. -/
def hexVal (c : Char) : Option Nat :=
  if '0' ≤ c && c ≤ '9' then some (c.toNat - 48)
  else if 'a' ≤ c && c ≤ 'f' then some (c.toNat - 87)
  else if 'A' ≤ c && c ≤ 'F' then some (c.toNat - 55)
  else none

/-- Four hex digits. -/
def hex4 (a b c d : Char) : Option Nat :=
  match hexVal a, hexVal b, hexVal c, hexVal d with
  | some va, some vb, some vc, some vd =>
    some (((va * 16 + vb) * 16 + vc) * 16 + vd)
  | _, _, _, _ => none

/-- Single-character JSON escapes (the table of `json.decoder.BACKSLASH`):
`n`, `t`, `r`, `b`, `f` map to the control characters 10, 9, 13, 8, 12,
while `"`, `\` and `/` map to themselves. -/
def unescapeC (e : Char) : Option Char :=
  if e = 'n' then some (Char.ofNat 10)
  else if e = 't' then some (Char.ofNat 9)
  else if e = 'r' then some (Char.ofNat 13)
  else if e = 'b' then some (Char.ofNat 8)
  else if e = 'f' then some (Char.ofNat 12)
  else if e = '"' || e = '\\' || e = '/' then some e
  else none

/-- The body of a JSON string after the opening quote (structural on the
input; unescaped control characters are rejected, as in strict CPython). -/
def parseStrBody (acc : List Char) : List Char → Option (String × List Char)
  | '"' :: rest => some (String.mk acc.reverse, rest)
  | '\\' :: 'u' :: a :: b :: c :: d :: rest =>
    (match hex4 a b c d with
     | none => none
     | some n =>
       if 0xD800 ≤ n && n < 0xDC00 then
         match rest with
         | '\\' :: 'u' :: a2 :: b2 :: c2 :: d2 :: rest2 =>
           match hex4 a2 b2 c2 d2 with
           | some m =>
             if 0xDC00 ≤ m && m < 0xE000 then
               parseStrBody
                 (Char.ofNat (0x10000 + (n - 0xD800) * 0x400 + (m - 0xDC00))
                   :: acc) rest2
             else none
           | none => none
         | _ => none
       else if 0xDC00 ≤ n && n < 0xE000 then none
       else parseStrBody (Char.ofNat n :: acc) rest)
  | '\\' :: e :: rest =>
    (match unescapeC e with
     | some ch => parseStrBody (ch :: acc) rest
     | none => none)
  | c :: rest =>
    if c.toNat < 0x20 then none else parseStrBody (c :: acc) rest
  | [] => none

/-- Build a dict from parsed members in order: CPython keeps the first
position of a duplicate key and its last value. -/
def buildObj (ms : List (String × JVal)) : List (String × JVal) :=
  ms.foldl (fun acc kv => dset acc kv.1 kv.2) []

mutual

/-- One JSON value; the input starts at a non-whitespace character, the
fuel dominates the recursion depth. -/
def parseVal (fuel : Nat) (s : List Char) : Option (JVal × List Char) :=
  match fuel with
  | 0 => none
  | fuel + 1 =>
    match s with
    | [] => none
    | c :: r =>
      if c == lbraceC then
        match skipWs r with
        | c2 :: r2 =>
          if c2 == rbraceC then some (.obj [], r2)
          else
            match parseMembers fuel (c2 :: r2) with
            | some (ms, r3) => some (.obj (buildObj ms), r3)
            | none => none
        | [] => none
      else if c == '[' then
        match skipWs r with
        | c2 :: r2 =>
          if c2 == ']' then some (.arr [], r2)
          else
            match parseElems fuel (c2 :: r2) with
            | some (es, r3) => some (.arr es, r3)
            | none => none
        | [] => none
      else if c == '"' then
        match parseStrBody [] r with
        | some (str, r2) => some (.str str, r2)
        | none => none
      else if c == 't' then
        match r with
        | 'r' :: 'u' :: 'e' :: r2 => some (.bool true, r2)
        | _ => none
      else if c == 'f' then
        match r with
        | 'a' :: 'l' :: 's' :: 'e' :: r2 => some (.bool false, r2)
        | _ => none
      else if c == 'n' then
        match r with
        | 'u' :: 'l' :: 'l' :: r2 => some (.null, r2)
        | _ => none
      else parseNumberJ (c :: r)

/-- One or more comma-separated array elements up to the closing bracket. -/
def parseElems (fuel : Nat) (s : List Char) :
    Option (List JVal × List Char) :=
  match fuel with
  | 0 => none
  | fuel + 1 =>
    match parseVal fuel s with
    | none => none
    | some (v, r) =>
      match skipWs r with
      | ',' :: r2 =>
        match parseElems fuel (skipWs r2) with
        | some (vs, r3) => some (v :: vs, r3)
        | none => none
      | ']' :: r2 => some ([v], r2)
      | _ => none

/-- One or more comma-separated object members up to the closing brace. -/
def parseMembers (fuel : Nat) (s : List Char) :
    Option (List (String × JVal) × List Char) :=
  match fuel with
  | 0 => none
  | fuel + 1 =>
    match s with
    | '"' :: r =>
      match parseStrBody [] r with
      | none => none
      | some (key, r1) =>
        match skipWs r1 with
        | ':' :: r2 =>
          match parseVal fuel (skipWs r2) with
          | none => none
          | some (v, r3) =>
            match skipWs r3 with
            | ',' :: r4 =>
              match parseMembers fuel (skipWs r4) with
              | some (ms, r5) => some ((key, v) :: ms, r5)
              | none => none
            | c2 :: r4 =>
              if c2 == rbraceC then some ([(key, v)], r4) else none
            | [] => none
        | _ => none
    | _ => none

end

/-- `json.loads` on a character list: parse one value surrounded by
optional whitespace, reject trailing data. -/
def json_loadsL (cs : List Char) : Option JVal :=
  let t := skipWs cs
  match parseVal (2 * t.length + 2) t with
  | some (v, rest) => if (skipWs rest).isEmpty then some v else none
  | none => none

/-- `json.loads` on a string. -/
def json_loads (s : String) : Option JVal := json_loadsL s.data

/-! ### `extract_json` (src/app1.py lines 154-197) -/

/-- Python `\s` / `str.strip()` whitespace (the ASCII whitespace
characters; CPython also accepts some Unicode spaces, which no claim
exercises). -/
def isPySpace (c : Char) : Bool :=
  c == ' ' || c == '\t' || c == '\n' || c == '\r' ||
    c == Char.ofNat 11 || c == Char.ofNat 12

/-- `re.sub(pat + r'\s*', '', s)` for a literal nonempty pattern `pat`:
remove every (non-overlapping, left-to-right) occurrence of the pattern
together with the greedy whitespace run that follows it.  The fuel is the
input length; every step consumes at least one character. -/
def subPatWsF : Nat → List Char → List Char → List Char
  | 0, _, s => s
  | f + 1, pat, s =>
    match s with
    | [] => []
    | c :: rest =>
      if pat.isPrefixOf (c :: rest) && !pat.isEmpty then
        subPatWsF f pat (List.dropWhile isPySpace (List.drop pat.length (c :: rest)))
      else c :: subPatWsF f pat rest

/-- `re.sub(pat + r'\s*', '', s)`. -/
def subPatWs (pat s : List Char) : List Char := subPatWsF s.length pat s

/-- `str.strip()`. -/
def pyStripL (cs : List Char) : List Char :=
  ((cs.dropWhile isPySpace).reverse.dropWhile isPySpace).reverse

/-- Index of the first occurrence of a character. -/
def idxOfC (c : Char) : List Char → Option Nat
  | [] => none
  | x :: xs => if x == c then some 0 else (idxOfC c xs).map (· + 1)

/-- Index of the last occurrence of a character (`str.rfind`). -/
def lastIdxOfC (c : Char) (cs : List Char) : Option Nat :=
  (idxOfC c cs.reverse).map (fun k => cs.length - 1 - k)

/-- `re.search(r'\{[\s\S]*\}', t)` (line 168): the greedy match runs from
the first opening brace to the last closing brace, provided the latter
comes after the former; no match otherwise. -/
def braceSpan (cs : List Char) : Option (List Char) :=
  match idxOfC lbraceC cs, lastIdxOfC rbraceC cs with
  | some i, some j => if i < j then some ((cs.drop i).take (j + 1 - i)) else none
  | _, _ => none

/-- Lines 178-182: `text[text.find('{') : text.rfind('}') + 1]` whenever
both characters occur (Python slicing yields `""` when the bounds cross). -/
def braceSlice (cs : List Char) : Option (List Char) :=
  match idxOfC lbraceC cs, lastIdxOfC rbraceC cs with
  | some i, some j => some ((cs.drop i).take (j + 1 - i))
  | _, _ => none

/-- The default valid JSON document (the literal repeated inline at
lines 187-197, 308-318, 332-342 and 467-473 of the source). -/
def default_json : JVal :=
  .obj [("laser", .obj [("id", .str "laser"),
                        ("params", .obj [("P", .float 1),
                                         ("wavelength_nm", .int 650),
                                         ("maxtem", .int 1)])]),
        ("components", .arr [])]

/-- Lines 176-197 of `extract_json`: the first-brace/last-brace slice
retry (whose parse failures are swallowed by the bare `except`) followed
by the silent default-document fallback. -/
def extractFallback (t : List Char) : JVal :=
  match braceSlice t with
  | some s =>
    match json_loadsL s with
    | some v => v
    | none => default_json
  | none => default_json

/-- `extract_json` (lines 154-197): strip markdown fences, strip
whitespace, try a direct parse, then the greedy brace-span regex, then
the find/rfind slice, and finally return the default document.  Total —
it never raises. -/
def extract_json (text : String) : JVal :=
  let t1 := subPatWs ("```json".data) text.data
  let t2 := subPatWs ("```".data) t1
  let t := pyStripL t2
  match json_loadsL t with
  | some v => v
  | none =>
    match braceSpan t with
    | some m =>
      match json_loadsL m with
      | some v => v
      | none => extractFallback t
    | none => extractFallback t

/-! ### `generate_json` (src/app1.py lines 274-350)

Only the extraction → validation → fallback composition is embedded: the
language-model call and the `save_json` file write are external I/O
collaborators (spec §6), so the function below maps the model's reply
text to the `(document, issues)` pair that `generate_json` builds from
it. -/

/-- Modelled `str(e)` of a caught exception: the exception class name
(CPython's message text is operand-specific; no claim depends on it). -/
def pyErrStr : PyErr → String
  | .typeError => "TypeError"
  | .attributeError => "AttributeError"
  | .keyError => "KeyError"

/-- Lines 300-350 of `generate_json`, given the model's reply: extract,
validate-and-fix, replace a `None` result by the default document
(lines 306-319), and convert any exception into the default document
plus a logged description (lines 330-350). -/
def generate_json (response_content : String) : JVal × List String :=
  let json_output := extract_json response_content
  match validate_and_fix_json json_output with
  | .ok (some fixed, issues) => (fixed, issues)
  | .ok (none, _) => (default_json, ["Created default JSON due to validation errors"])
  | .error e =>
    (default_json, ["Error occurred: " ++ pyErrStr e ++ ". Created default JSON."])

/-! ### Observations on documents (used only to state properties) -/

/-- The value of a top-level key of a dict document. -/
def topField (d : JVal) (k : String) : Option JVal :=
  match d with
  | .obj kvs => dget kvs k
  | _ => none

/-- Does a dict document carry the key? -/
def hasKeyB (d : JVal) (k : String) : Bool := (topField d k).isSome

/-- Is the value a list? -/
def isArrB : JVal → Bool
  | .arr _ => true
  | _ => false

/-- The components list of a document (empty when absent or not a list). -/
def componentsOf (d : JVal) : List JVal :=
  match topField d "components" with
  | some (.arr xs) => xs
  | _ => []

/-- `component.get("type", "unknown")` of a component value. -/
def kindOfC (c : JVal) : JVal :=
  match c with
  | .obj kvs => compTypeOf kvs
  | _ => .null

/-- Does the component have kind `K` (a string kind)? -/
def isKindB (K : String) (c : JVal) : Bool :=
  match kindOfC c with
  | .str s => s == K
  | _ => false

/-- The id value of a component. -/
def idOfC (c : JVal) : Option JVal := topField c "id"

/-- The params value of a component. -/
def paramsOf (c : JVal) : Option JVal := topField c "params"

/-- A named param of a component (when params is a dict). -/
def paramField (c : JVal) (k : String) : Option JVal :=
  match paramsOf c with
  | some (.obj pkvs) => dget pkvs k
  | _ => none

/-- The ids of the kind-`K` components, in document order. -/
def idsOfKind (K : String) (xs : List JVal) : List (Option JVal) :=
  (xs.filter (isKindB K)).map idOfC

/-- `[some "K_1", …, some "K_m"]`: the gapless 1-based id sequence. -/
def idSeq (K : String) (m : Nat) : List (Option JVal) :=
  (List.range m).map fun i => some (.str (K ++ "_" ++ toString (i + 1)))

/-- Is the value numerically one of the permitted rotations
`0, 90, 180, 270`?  (Python `==`, so `90.0` and `False` qualify.) -/
def rotValInSetB (v : JVal) : Bool :=
  match pyNumQ v with
  | some q => q == 0 || q == 90 || q == 180 || q == 270
  | none => false

/-- Is the value a dict? -/
def isObjB : JVal → Bool
  | .obj _ => true
  | _ => false

/-- Key lookup on a params value (none when it is not a dict). -/
def pget (p : JVal) (k : String) : Option JVal :=
  match p with
  | .obj pkvs => dget pkvs k
  | _ => none

/-- Distinct keys in an association list (the CPython dict invariant). -/
def keysNodupB : List (String × JVal) → Bool
  | [] => true
  | (k, _) :: rest => !dhas rest k && keysNodupB rest

/-- A component value as `json.loads` can produce it: if it is a dict its
keys are distinct, and so are its params' keys. -/
def compWF (c : JVal) : Bool :=
  match c with
  | .obj kvs =>
    keysNodupB kvs &&
      (match dget kvs "params" with
       | some (.obj pkvs) => keysNodupB pkvs
       | _ => true)
  | _ => true

/-- A document as `json.loads` can produce it (to the depth the validator
inspects): distinct top-level keys, and well-formed components. -/
def docWF (d : JVal) : Bool :=
  match d with
  | .obj kvs =>
    keysNodupB kvs &&
      (match dget kvs "components" with
       | some (.arr xs) => xs.all compWF
       | _ => true)
  | _ => true

/-! ## Theorems -/

/-! ### Dictionary lemmas -/

theorem dget_dset_self (l : List (String × JVal)) (k : String) (v : JVal) :
    dget (dset l k v) k = some v := by
  induction l with
  | nil => simp [dset, dget]
  | cons kv rest ih =>
    by_cases h : kv.1 = k <;> simp [dset, dget, h, ih]

theorem dget_dset_ne (l : List (String × JVal)) {k k' : String} (v : JVal)
    (h : k' ≠ k) : dget (dset l k v) k' = dget l k' := by
  have h' : ¬(k = k') := fun hh => h hh.symm
  induction l with
  | nil => simp [dset, dget, h']
  | cons kv rest ih =>
    by_cases hk : kv.1 = k
    · simp [dset, dget, hk, h']
    · by_cases hk' : kv.1 = k' <;> simp [dset, dget, hk, hk', h, h', ih]

theorem dset_eq_of_dget {l : List (String × JVal)} {k : String} {v : JVal}
    (h : dget l k = some v) : dset l k v = l := by
  induction l with
  | nil => simp [dget] at h
  | cons kv rest ih =>
    obtain ⟨a, b⟩ := kv
    by_cases hk : a = k
    · simp [dget, hk] at h
      simp [dset, hk, h]
    · simp [dget, hk] at h
      simp [dset, hk, ih h]

theorem dget_ddel_ne (l : List (String × JVal)) {k k' : String}
    (h : k' ≠ k) : dget (ddel l k) k' = dget l k' := by
  have h' : ¬(k = k') := fun hh => h hh.symm
  induction l with
  | nil => simp [ddel]
  | cons kv rest ih =>
    by_cases hk : kv.1 = k
    · simp [ddel, dget, hk, h']
    · by_cases hk' : kv.1 = k' <;> simp [ddel, dget, hk, hk', h, h', ih]

theorem dget_ddel_self {l : List (String × JVal)} {k : String}
    (h : keysNodupB l = true) : dget (ddel l k) k = none := by
  induction l with
  | nil => simp [ddel, dget]
  | cons kv rest ih =>
    simp only [keysNodupB, Bool.and_eq_true, Bool.not_eq_true'] at h
    by_cases hk : kv.1 = k
    · subst hk
      simpa [ddel, dhas, Option.isSome_iff_exists] using h.1
    · simp [ddel, dget, hk, ih h.2]

theorem dhas_dset (l : List (String × JVal)) (k k' : String) (v : JVal) :
    dhas (dset l k v) k' = (k' = k || dhas l k') := by
  by_cases h : k' = k
  · simp [dhas, h, dget_dset_self]
  · simp [dhas, h, dget_dset_ne _ _ h]

theorem keysNodupB_dset {l : List (String × JVal)} (k : String) (v : JVal)
    (h : keysNodupB l = true) : keysNodupB (dset l k v) = true := by
  induction l with
  | nil => simp [dset, keysNodupB, dhas, dget]
  | cons kv rest ih =>
    obtain ⟨a, b⟩ := kv
    simp only [keysNodupB, Bool.and_eq_true, Bool.not_eq_true'] at h
    by_cases hk : a = k
    · subst hk
      simp [dset, keysNodupB, h.1, h.2]
    · have hd : dhas (dset rest k v) a = false := by
        rw [dhas_dset]
        simp [h.1, fun hh => hk hh]
      simp [dset, hk, keysNodupB, hd, ih h.2]

theorem keysNodupB_ddel {l : List (String × JVal)} (k : String)
    (h : keysNodupB l = true) : keysNodupB (ddel l k) = true := by
  induction l with
  | nil => simp [ddel, keysNodupB]
  | cons kv rest ih =>
    obtain ⟨a, b⟩ := kv
    simp only [keysNodupB, Bool.and_eq_true, Bool.not_eq_true'] at h
    by_cases hk : a = k
    · simp [ddel, hk, h.2]
    · have hd : dhas (ddel rest k) a = false := by
        simp only [dhas] at h ⊢
        rw [dget_ddel_ne rest hk]
        exact h.1
      simp [ddel, hk, keysNodupB, hd, ih h.2]

/-! ### `pyEq` bridge lemmas -/

theorem pyEq_str_str (x y : String) : pyEq (.str x) (.str y) = (x == y) := by
  simp [pyEq]

theorem pyEq_eq_str {v : JVal} {y : String} (h : pyEq v (.str y) = true) :
    v = .str y := by
  cases v <;> simp_all [pyEq, pyNumQ]

theorem pyEq_str_eq {v : JVal} {x : String} (h : pyEq (.str x) v = true) :
    v = .str x := by
  cases v <;> simp_all [pyEq, pyNumQ]

theorem pyEq_str_self (x : String) : pyEq (.str x) (.str x) = true := by
  simp [pyEq]

theorem pyEq_int_int (n m : ℤ) : pyEq (.int n) (.int m) = true ↔ n = m := by
  simp [pyEq, pyNumQ]

theorem pyEq_num_int {v : JVal} {q : ℚ} (h : pyNumQ v = some q) (k : ℤ) :
    pyEq v (.int k) = (q == (k : ℚ)) := by
  cases v <;> simp_all [pyEq, pyNumQ]

theorem pyEq_nonnum_int {v : JVal} (h : pyNumQ v = none) (k : ℤ) :
    pyEq v (.int k) = false := by
  cases v <;> simp_all [pyEq, pyNumQ]

/-! ### Rotation snapping lemmas -/

theorem abs_dist_lt_iff {a b : ℚ} (nq : ℚ) (h : a < b) :
    |b - nq| < |a - nq| ↔ (a + b) / 2 < nq := by
  rw [abs_lt_iff_mul_self_lt]
  constructor
  · intro h'; nlinarith
  · intro h'; nlinarith

/-- The first-minimum fold of the source resolves to an interval table
(ties at 45/135/225 stay with the earlier, smaller value). -/
theorem closestRotation_eq (nq : ℚ) :
    closestRotation nq =
      if nq ≤ 45 then 0 else if nq ≤ 135 then 90 else if nq ≤ 225 then 180
      else 270 := by
  have i090 : (|(90 : ℚ) - nq| < |(0 : ℚ) - nq|) ↔ 45 < nq := by
    rw [abs_dist_lt_iff nq (by norm_num : (0 : ℚ) < 90)]; norm_num
  have i0180 : (|(180 : ℚ) - nq| < |(0 : ℚ) - nq|) ↔ 90 < nq := by
    rw [abs_dist_lt_iff nq (by norm_num : (0 : ℚ) < 180)]; norm_num
  have i90180 : (|(180 : ℚ) - nq| < |(90 : ℚ) - nq|) ↔ 135 < nq := by
    rw [abs_dist_lt_iff nq (by norm_num : (90 : ℚ) < 180)]; norm_num
  have i0270 : (|(270 : ℚ) - nq| < |(0 : ℚ) - nq|) ↔ 135 < nq := by
    rw [abs_dist_lt_iff nq (by norm_num : (0 : ℚ) < 270)]; norm_num
  have i90270 : (|(270 : ℚ) - nq| < |(90 : ℚ) - nq|) ↔ 180 < nq := by
    rw [abs_dist_lt_iff nq (by norm_num : (90 : ℚ) < 270)]; norm_num
  have i180270 : (|(270 : ℚ) - nq| < |(180 : ℚ) - nq|) ↔ 225 < nq := by
    rw [abs_dist_lt_iff nq (by norm_num : (180 : ℚ) < 270)]; norm_num
  unfold closestRotation
  simp only [List.foldl_cons, List.foldl_nil, lt_self_iff_false, if_false]
  push_cast
  split_ifs with h1 <;>
    rw [i090] at h1 <;>
    first
      | rfl
      | (simp only [i0180, i90180, i0270, i90270, i180270] at *; linarith)

theorem closestRotation_mem (nq : ℚ) :
    closestRotation nq = 0 ∨ closestRotation nq = 90 ∨
      closestRotation nq = 180 ∨ closestRotation nq = 270 := by
  rw [closestRotation_eq]
  split_ifs <;> simp

/-- The snapped value minimizes the absolute distance to `nq` over the
four permitted rotations. -/
theorem closestRotation_nearest (nq : ℚ) (r' : ℤ)
    (hr : r' = 0 ∨ r' = 90 ∨ r' = 180 ∨ r' = 270) :
    |(closestRotation nq : ℚ) - nq| ≤ |(r' : ℚ) - nq| := by
  rw [closestRotation_eq]
  rcases hr with h | h | h | h <;> subst h <;>
    split_ifs with h1 h2 h3 <;>
    push_cast <;>
    rw [abs_le_iff_mul_self_le] <;>
    nlinarith [sq_nonneg nq]

/-- Exact distance ties resolve toward the smaller permitted value. -/
theorem closestRotation_tie (nq : ℚ) (r' : ℤ)
    (hr : r' = 0 ∨ r' = 90 ∨ r' = 180 ∨ r' = 270)
    (heq : |(r' : ℚ) - nq| = |(closestRotation nq : ℚ) - nq|) :
    closestRotation nq ≤ r' := by
  rw [closestRotation_eq] at heq ⊢
  rcases hr with h | h | h | h <;> subst h <;>
    split_ifs at heq ⊢ with h1 h2 h3 <;>
    push_cast at heq ⊢ <;>
    rcases abs_eq_abs.mp heq with he | he <;> linarith

theorem pyInRotList_int (k : ℤ) :
    pyInRotList (.int k) = true ↔ (k = 0 ∨ k = 90 ∨ k = 180 ∨ k = 270) := by
  simp only [pyInRotList, List.any_cons, List.any_nil, Bool.or_eq_true,
    Bool.or_false]
  rw [@pyEq_num_int (.int k) (k : ℚ) rfl 0, @pyEq_num_int (.int k) (k : ℚ) rfl 90,
    @pyEq_num_int (.int k) (k : ℚ) rfl 180, @pyEq_num_int (.int k) (k : ℚ) rfl 270]
  simp only [beq_iff_eq]
  constructor
  · rintro (h | h | h | h)
    · exact Or.inl (by exact_mod_cast h)
    · exact Or.inr (Or.inl (by exact_mod_cast h))
    · exact Or.inr (Or.inr (Or.inl (by exact_mod_cast h)))
    · exact Or.inr (Or.inr (Or.inr (by exact_mod_cast h)))
  · rintro (h | h | h | h) <;> subst h <;> norm_num

theorem pyInRotList_closest (nq : ℚ) :
    pyInRotList (.int (closestRotation nq)) = true := by
  exact (pyInRotList_int _).mpr (closestRotation_mem nq)

/-! ### Characterization of the per-param repair stages on dict params -/

theorem fixAlpha_obj (cid : String) (pkvs : List (String × JVal)) :
    fixAlpha cid (.obj pkvs) =
      if dhas pkvs "alpha_deg" then
        .ok (.obj (ddel pkvs "alpha_deg"), ["Removed alpha_deg from " ++ cid])
      else .ok (.obj pkvs, []) := by
  by_cases h : dhas pkvs "alpha_deg" = true <;>
    simp [fixAlpha, pyContains, pyDelItem, h]

theorem fixRotation_obj (cid : String) (pkvs : List (String × JVal)) :
    fixRotation cid (.obj pkvs) =
      match dget pkvs "component_rotated" with
      | none => .ok (.obj pkvs, [])
      | some rotation =>
        if !isInstInt rotation || !pyInRotList rotation then
          match jnumToQ rotation with
          | some q =>
            .ok (.obj (dset pkvs "component_rotated"
                   (.int (closestRotation (pyMod360 q)))),
                 ["Fixed rotation in " ++ cid ++ ": " ++ pyStr rotation ++
                  " → " ++ toString (closestRotation (pyMod360 q))])
          | none => .ok (.obj pkvs, [])
        else .ok (.obj pkvs, []) := by
  cases hr : dget pkvs "component_rotated" with
  | none => simp [fixRotation, pyContains, dhas, hr]
  | some rotation =>
    have hh : dhas pkvs "component_rotated" = true := by simp [dhas, hr]
    by_cases hc : (!isInstInt rotation || !pyInRotList rotation) = true
    · cases hq : jnumToQ rotation with
      | some q =>
        simp [fixRotation, pyContains, pyGetItem, pySetItem, hr, hh, hc, hq]
      | none => simp [fixRotation, pyContains, pyGetItem, hr, hh, hc, hq]
    · simp [fixRotation, pyContains, pyGetItem, hr, hh, hc]

theorem fixFm_obj (cid : String) (pkvs : List (String × JVal)) :
    fixFm cid (.obj pkvs) =
      match dget pkvs "f_m" with
      | none => .ok (.obj pkvs, [])
      | some fm =>
        match pyMul1e6 fm with
        | .error e => .error e
        | .ok prod =>
          match pyAbs prod with
          | .error e => .error e
          | .ok v =>
            .ok (.obj (ddel (dset pkvs "f_um" v) "f_m"),
                 ["Converted f_m to f_um in " ++ cid]) := by
  cases hr : dget pkvs "f_m" with
  | none => simp [fixFm, pyContains, dhas, hr]
  | some fm =>
    have hh : dhas pkvs "f_m" = true := by simp [dhas, hr]
    cases hm : pyMul1e6 fm with
    | error e => simp [fixFm, pyContains, pyGetItem, hr, hh, hm]
    | ok prod =>
      cases ha : pyAbs prod with
      | error e => simp [fixFm, pyContains, pyGetItem, hr, hh, hm, ha]
      | ok v =>
        have hdel : dhas (dset pkvs "f_um" v) "f_m" = true := by
          rw [dhas_dset]
          simp [dhas, hr]
        simp [fixFm, pyContains, pyGetItem, pySetItem, pyDelItem, hr, hh, hm,
          ha, hdel]

theorem fixLensType_obj (cid : String) (pkvs : List (String × JVal)) :
    fixLensType cid (.obj pkvs) =
      match dget pkvs "type" with
      | none => .ok (.obj pkvs, [])
      | some tv =>
        if dhas pkvs "lensType" then .ok (.obj pkvs, [])
        else
          .ok (.obj (ddel (dset pkvs "lensType" tv) "type"),
               ["Renamed \x27type\x27 to \x27lensType\x27 in " ++ cid]) := by
  cases hr : dget pkvs "type" with
  | none => simp [fixLensType, pyContains, dhas, hr]
  | some tv =>
    have hh : dhas pkvs "type" = true := by simp [dhas, hr]
    by_cases hl : dhas pkvs "lensType" = true
    · simp [fixLensType, pyContains, pyGetItem, hr, hh, hl]
    · have hdel : dhas (dset pkvs "lensType" tv) "type" = true := by
        rw [dhas_dset]
        simp [dhas, hr]
      simp [fixLensType, pyContains, pyGetItem, pySetItem, pyDelItem, hr, hh,
        hl, hdel]

theorem fixLens_not_lens {comp_type : JVal} (cid : String) (p : JVal)
    (h : pyEq comp_type (.str "lens") = false) :
    fixLens comp_type cid p = .ok (p, []) := by
  simp [fixLens, h]

theorem fixLens_lens {comp_type : JVal}
    (h : pyEq comp_type (.str "lens") = true) (cid : String) (p : JVal) :
    fixLens comp_type cid p =
      match fixFm cid p with
      | .error e => .error e
      | .ok (p1, a) =>
        match fixLensType cid p1 with
        | .error e => .error e
        | .ok (p2, b) => .ok (p2, a ++ b) := by
  simp [fixLens, h]

/-! ### Non-dict params pass through every repair stage unchanged -/

theorem fixAlpha_ok_nonobj {cid : String} {p p' : JVal} {iss : List String}
    (h : fixAlpha cid p = .ok (p', iss)) (hn : isObjB p = false) :
    p' = p ∧ iss = [] := by
  cases p with
  | str s =>
    by_cases hs : substrB "alpha_deg".data s.data = true <;>
      simp [fixAlpha, pyContains, pyDelItem, hs] at h <;> simp_all
  | arr xs =>
    by_cases hs : (xs.any fun x => pyEq x (.str "alpha_deg")) = true <;>
      simp [fixAlpha, pyContains, pyDelItem, hs] at h <;> simp_all
  | obj kvs => simp [isObjB] at hn
  | null => simp [fixAlpha, pyContains] at h
  | bool b => simp [fixAlpha, pyContains] at h
  | int n => simp [fixAlpha, pyContains] at h
  | float q => simp [fixAlpha, pyContains] at h

theorem fixRotation_ok_nonobj {cid : String} {p p' : JVal} {iss : List String}
    (h : fixRotation cid p = .ok (p', iss)) (hn : isObjB p = false) :
    p' = p ∧ iss = [] := by
  cases p with
  | str s =>
    by_cases hs : substrB "component_rotated".data s.data = true <;>
      simp [fixRotation, pyContains, pyGetItem, hs] at h <;> simp_all
  | arr xs =>
    by_cases hs : (xs.any fun x => pyEq x (.str "component_rotated")) = true <;>
      simp [fixRotation, pyContains, pyGetItem, hs] at h <;> simp_all
  | obj kvs => simp [isObjB] at hn
  | null => simp [fixRotation, pyContains] at h
  | bool b => simp [fixRotation, pyContains] at h
  | int n => simp [fixRotation, pyContains] at h
  | float q => simp [fixRotation, pyContains] at h

theorem fixFm_ok_nonobj {cid : String} {p p' : JVal} {iss : List String}
    (h : fixFm cid p = .ok (p', iss)) (hn : isObjB p = false) :
    p' = p ∧ iss = [] := by
  cases p with
  | str s =>
    by_cases hs : substrB "f_m".data s.data = true <;>
      simp [fixFm, pyContains, pyGetItem, hs] at h <;> simp_all
  | arr xs =>
    by_cases hs : (xs.any fun x => pyEq x (.str "f_m")) = true <;>
      simp [fixFm, pyContains, pyGetItem, hs] at h <;> simp_all
  | obj kvs => simp [isObjB] at hn
  | null => simp [fixFm, pyContains] at h
  | bool b => simp [fixFm, pyContains] at h
  | int n => simp [fixFm, pyContains] at h
  | float q => simp [fixFm, pyContains] at h

theorem fixLensType_ok_nonobj {cid : String} {p p' : JVal} {iss : List String}
    (h : fixLensType cid p = .ok (p', iss)) (hn : isObjB p = false) :
    p' = p ∧ iss = [] := by
  cases p with
  | str s =>
    by_cases hs : substrB "type".data s.data = true <;>
      by_cases hl : substrB "lensType".data s.data = true <;>
      simp [fixLensType, pyContains, pyGetItem, hs, hl] at h <;> simp_all
  | arr xs =>
    by_cases hs : (xs.any fun x => pyEq x (.str "type")) = true <;>
      by_cases hl : (xs.any fun x => pyEq x (.str "lensType")) = true <;>
      simp [fixLensType, pyContains, pyGetItem, hs, hl] at h <;> simp_all
  | obj kvs => simp [isObjB] at hn
  | null => simp [fixLensType, pyContains] at h
  | bool b => simp [fixLensType, pyContains] at h
  | int n => simp [fixLensType, pyContains] at h
  | float q => simp [fixLensType, pyContains] at h

theorem fixLens_ok_nonobj {comp_type : JVal} {cid : String} {p p' : JVal}
    {iss : List String} (h : fixLens comp_type cid p = .ok (p', iss))
    (hn : isObjB p = false) : p' = p ∧ iss = [] := by
  by_cases hl : pyEq comp_type (.str "lens") = true
  · rw [fixLens_lens hl] at h
    split at h
    · simp at h
    · rename_i p1 a hf
      split at h
      · simp at h
      · rename_i p2 b ht
        obtain ⟨hp1, ha⟩ := fixFm_ok_nonobj hf hn
        have hn1 : isObjB p1 = false := by rw [hp1]; exact hn
        obtain ⟨hp2, hb⟩ := fixLensType_ok_nonobj ht hn1
        simp only [Except.ok.injEq, Prod.mk.injEq] at h
        refine ⟨?_, ?_⟩
        · rw [← h.1, hp2, hp1]
        · rw [← h.2, ha, hb]; simp
  · rw [fixLens_not_lens cid p (by simpa using hl)] at h
    simp only [Except.ok.injEq, Prod.mk.injEq] at h
    exact ⟨h.1.symm, h.2.symm⟩

theorem isObjB_eq_true_iff (p : JVal) :
    isObjB p = true ↔ ∃ pkvs, p = .obj pkvs := by
  cases p <;> simp [isObjB]

theorem fixAlpha_frame {cid : String} {p p' : JVal} {iss : List String}
    (h : fixAlpha cid p = .ok (p', iss)) :
    isObjB p' = isObjB p ∧
      ∀ k, k ≠ "alpha_deg" → pget p' k = pget p k := by
  by_cases hobj : isObjB p = true
  · obtain ⟨pkvs, rfl⟩ := (isObjB_eq_true_iff p).mp hobj
    rw [fixAlpha_obj] at h
    by_cases hd : dhas pkvs "alpha_deg" = true
    · rw [if_pos hd] at h
      simp only [Except.ok.injEq, Prod.mk.injEq] at h
      rw [← h.1]
      exact ⟨rfl, fun k hk => by simp [pget, dget_ddel_ne pkvs hk]⟩
    · rw [if_neg hd] at h
      simp only [Except.ok.injEq, Prod.mk.injEq] at h
      rw [← h.1]
      exact ⟨rfl, fun k _ => rfl⟩
  · obtain ⟨hp, _⟩ := fixAlpha_ok_nonobj h (by simpa using hobj)
    rw [hp]
    exact ⟨rfl, fun k _ => rfl⟩

theorem fixRotation_frame {cid : String} {p p' : JVal} {iss : List String}
    (h : fixRotation cid p = .ok (p', iss)) :
    isObjB p' = isObjB p ∧
      ∀ k, k ≠ "component_rotated" → pget p' k = pget p k := by
  by_cases hobj : isObjB p = true
  · obtain ⟨pkvs, rfl⟩ := (isObjB_eq_true_iff p).mp hobj
    rw [fixRotation_obj] at h
    split at h
    · simp only [Except.ok.injEq, Prod.mk.injEq] at h
      rw [← h.1]
      exact ⟨rfl, fun k _ => rfl⟩
    · rename_i rotation hr
      split at h
      · split at h
        · simp only [Except.ok.injEq, Prod.mk.injEq] at h
          rw [← h.1]
          exact ⟨rfl, fun k hk => by simp [pget, dget_dset_ne pkvs _ hk]⟩
        · simp only [Except.ok.injEq, Prod.mk.injEq] at h
          rw [← h.1]
          exact ⟨rfl, fun k _ => rfl⟩
      · simp only [Except.ok.injEq, Prod.mk.injEq] at h
        rw [← h.1]
        exact ⟨rfl, fun k _ => rfl⟩
  · obtain ⟨hp, _⟩ := fixRotation_ok_nonobj h (by simpa using hobj)
    rw [hp]
    exact ⟨rfl, fun k _ => rfl⟩

theorem fixFm_frame {cid : String} {p p' : JVal} {iss : List String}
    (h : fixFm cid p = .ok (p', iss)) :
    isObjB p' = isObjB p ∧
      ∀ k, k ≠ "f_m" → k ≠ "f_um" → pget p' k = pget p k := by
  by_cases hobj : isObjB p = true
  · obtain ⟨pkvs, rfl⟩ := (isObjB_eq_true_iff p).mp hobj
    rw [fixFm_obj] at h
    split at h
    · simp only [Except.ok.injEq, Prod.mk.injEq] at h
      rw [← h.1]
      exact ⟨rfl, fun k _ _ => rfl⟩
    · rename_i fm hr
      split at h
      · simp at h
      · rename_i prod hm
        split at h
        · simp at h
        · rename_i v ha
          simp only [Except.ok.injEq, Prod.mk.injEq] at h
          rw [← h.1]
          refine ⟨rfl, fun k hk1 hk2 => ?_⟩
          simp only [pget]
          rw [dget_ddel_ne _ hk1, dget_dset_ne pkvs _ hk2]
  · obtain ⟨hp, _⟩ := fixFm_ok_nonobj h (by simpa using hobj)
    rw [hp]
    exact ⟨rfl, fun k _ _ => rfl⟩

theorem fixLensType_frame {cid : String} {p p' : JVal} {iss : List String}
    (h : fixLensType cid p = .ok (p', iss)) :
    isObjB p' = isObjB p ∧
      ∀ k, k ≠ "type" → k ≠ "lensType" → pget p' k = pget p k := by
  by_cases hobj : isObjB p = true
  · obtain ⟨pkvs, rfl⟩ := (isObjB_eq_true_iff p).mp hobj
    rw [fixLensType_obj] at h
    split at h
    · simp only [Except.ok.injEq, Prod.mk.injEq] at h
      rw [← h.1]
      exact ⟨rfl, fun k _ _ => rfl⟩
    · rename_i tv hr
      split at h
      · simp only [Except.ok.injEq, Prod.mk.injEq] at h
        rw [← h.1]
        exact ⟨rfl, fun k _ _ => rfl⟩
      · simp only [Except.ok.injEq, Prod.mk.injEq] at h
        rw [← h.1]
        refine ⟨rfl, fun k hk1 hk2 => ?_⟩
        simp only [pget]
        rw [dget_ddel_ne _ hk1, dget_dset_ne pkvs _ hk2]
  · obtain ⟨hp, _⟩ := fixLensType_ok_nonobj h (by simpa using hobj)
    rw [hp]
    exact ⟨rfl, fun k _ _ => rfl⟩

theorem fixLens_frame {comp_type : JVal} {cid : String} {p p' : JVal}
    {iss : List String} (h : fixLens comp_type cid p = .ok (p', iss)) :
    isObjB p' = isObjB p ∧
      ∀ k, k ≠ "f_m" → k ≠ "f_um" → k ≠ "type" → k ≠ "lensType" →
        pget p' k = pget p k := by
  by_cases hl : pyEq comp_type (.str "lens") = true
  · rw [fixLens_lens hl] at h
    split at h
    · simp at h
    · rename_i p1 a hf
      split at h
      · simp at h
      · rename_i p2 b ht
        simp only [Except.ok.injEq, Prod.mk.injEq] at h
        obtain ⟨hf1, hf2⟩ := fixFm_frame hf
        obtain ⟨ht1, ht2⟩ := fixLensType_frame ht
        rw [← h.1]
        refine ⟨by rw [ht1, hf1], fun k hk1 hk2 hk3 hk4 => ?_⟩
        rw [ht2 k hk3 hk4, hf2 k hk1 hk2]
  · rw [fixLens_not_lens cid p (by simpa using hl)] at h
    simp only [Except.ok.injEq, Prod.mk.injEq] at h
    rw [← h.1]
    exact ⟨rfl, fun k _ _ _ _ => rfl⟩

theorem fixParams_frame {comp_type : JVal} {cid : String} {p p' : JVal}
    {iss : List String} (h : fixParams comp_type cid p = .ok (p', iss)) :
    isObjB p' = isObjB p ∧
      ∀ k, k ≠ "alpha_deg" → k ≠ "component_rotated" → k ≠ "f_m" →
        k ≠ "f_um" → k ≠ "type" → k ≠ "lensType" →
        pget p' k = pget p k := by
  unfold fixParams at h
  split at h
  · simp at h
  · rename_i p1 a ha
    split at h
    · simp at h
    · rename_i p2 b hb
      split at h
      · simp at h
      · rename_i p3 c hc
        simp only [Except.ok.injEq, Prod.mk.injEq] at h
        obtain ⟨s1, f1⟩ := fixAlpha_frame ha
        obtain ⟨s2, f2⟩ := fixRotation_frame hb
        obtain ⟨s3, f3⟩ := fixLens_frame hc
        rw [← h.1]
        refine ⟨by rw [s3, s2, s1], fun k hk1 hk2 hk3 hk4 hk5 hk6 => ?_⟩
        rw [f3 k hk3 hk4 hk5 hk6, f2 k hk2, f1 k hk1]

theorem fixParams_ok_nonobj {comp_type : JVal} {cid : String} {p p' : JVal}
    {iss : List String} (h : fixParams comp_type cid p = .ok (p', iss))
    (hn : isObjB p = false) : p' = p ∧ iss = [] := by
  unfold fixParams at h
  split at h
  · simp at h
  · rename_i p1 a ha
    split at h
    · simp at h
    · rename_i p2 b hb
      split at h
      · simp at h
      · rename_i p3 c hc
        obtain ⟨hp1, ha'⟩ := fixAlpha_ok_nonobj ha hn
        have hn1 : isObjB p1 = false := by rw [hp1]; exact hn
        obtain ⟨hp2, hb'⟩ := fixRotation_ok_nonobj hb hn1
        have hn2 : isObjB p2 = false := by rw [hp2]; exact hn1
        obtain ⟨hp3, hc'⟩ := fixLens_ok_nonobj hc hn2
        simp only [Except.ok.injEq, Prod.mk.injEq] at h
        refine ⟨?_, ?_⟩
        · rw [← h.1, hp3, hp2, hp1]
        · rw [← h.2, ha', hb', hc']; simp

/-! ### Characterization of one loop iteration (`processComponent`) -/

theorem idFixKvs_id (st : List (JVal × Nat)) (kvs : List (String × JVal)) :
    dget (idFixKvs st kvs) "id" = some (.str (expectedIdOf st kvs)) := by
  unfold idFixKvs
  by_cases hp :
      pyEq ((dget kvs "id").getD .null) (.str (expectedIdOf st kvs)) = true
  · rw [if_pos hp]
    have he := pyEq_eq_str hp
    cases hg : dget kvs "id" with
    | none => rw [hg] at he; simp at he
    | some w => rw [hg] at he; simp at he; rw [he]
  · rw [if_neg hp]
    exact dget_dset_self kvs "id" _

theorem idFixKvs_frame (st : List (JVal × Nat)) (kvs : List (String × JVal))
    {k : String} (hk : k ≠ "id") :
    dget (idFixKvs st kvs) k = dget kvs k := by
  unfold idFixKvs
  split_ifs
  · rfl
  · exact dget_dset_ne kvs _ hk

/-- Writing the counter of kind `K` and reading it back. -/
theorem countersGetN_set_self (st : List (JVal × Nat)) (n : Nat) (K : String) :
    countersGetN (countersSet st (.str K) n) (.str K) = n := by
  induction st with
  | nil => simp [countersSet, countersGetN, pyEq_str_self]
  | cons e rest ih =>
    by_cases he : pyEq e.1 (.str K) = true
    · have h1 : countersSet (e :: rest) (.str K) n = (e.1, n) :: rest := by
        simp [countersSet, he]
      rw [h1]
      simp [countersGetN, he]
    · have h1 : countersSet (e :: rest) (.str K) n =
          e :: countersSet rest (.str K) n := by
        simp [countersSet, he]
      rw [h1]
      simp [countersGetN, he, ih]

/-- Writing any other counter leaves the counter of kind `K` alone. -/
theorem countersGetN_set_other (st : List (JVal × Nat)) {key : JVal}
    (n : Nat) {K : String} (hk : key ≠ .str K) :
    countersGetN (countersSet st key n) (.str K) =
      countersGetN st (.str K) := by
  induction st with
  | nil =>
    have hpf : pyEq key (.str K) = false := by
      cases hp : pyEq key (.str K)
      · rfl
      · exact absurd (pyEq_eq_str hp) hk
    simp [countersSet, countersGetN, hpf]
  | cons e rest ih =>
    by_cases he : pyEq e.1 key = true
    · have h1 : countersSet (e :: rest) key n = (e.1, n) :: rest := by
        simp [countersSet, he]
      have heK : pyEq e.1 (.str K) = false := by
        cases hp : pyEq e.1 (.str K)
        · rfl
        · exact absurd (by rw [pyEq_eq_str hp] at he; exact pyEq_str_eq he) hk
      rw [h1]
      simp [countersGetN, heK]
    · have h1 : countersSet (e :: rest) key n = e :: countersSet rest key n := by
        simp [countersSet, he]
      rw [h1]
      by_cases heK : pyEq e.1 (.str K) = true
      · simp [countersGetN, heK]
      · simp [countersGetN, heK, ih]

/-- `processComponent` on a dict component, fully reduced. -/
theorem processComponent_obj_eq (st : List (JVal × Nat))
    (kvs : List (String × JVal)) :
    processComponent st (.obj kvs) =
      if hashable (compTypeOf kvs) then
        (if dhas (idFixKvs st kvs) "params" then
          match fixParams (compTypeOf kvs) (expectedIdOf st kvs)
              ((dget (idFixKvs st kvs) "params").getD .null) with
          | .error e => .error e
          | .ok (p', iss2) =>
            .ok (.obj (dset (idFixKvs st kvs) "params" p'),
                 countersSet st (compTypeOf kvs)
                   (countersGetN st (compTypeOf kvs) + 1),
                 idFixIss st kvs ++ iss2)
        else
          .ok (.obj (idFixKvs st kvs),
               countersSet st (compTypeOf kvs)
                 (countersGetN st (compTypeOf kvs) + 1),
               idFixIss st kvs))
      else .error .typeError := rfl

/-- Eliminating a successful `processComponent` run on a dict component:
the hashability guard held, the counters advanced for the component's
kind, and the output is the id-fixed component with its params repaired
when present. -/
theorem processComponent_parts {st : List (JVal × Nat)}
    {kvs : List (String × JVal)} {c' : JVal} {st' : List (JVal × Nat)}
    {iss : List String}
    (h : processComponent st (.obj kvs) = .ok (c', st', iss)) :
    hashable (compTypeOf kvs) = true ∧
      st' = countersSet st (compTypeOf kvs)
              (countersGetN st (compTypeOf kvs) + 1) ∧
      ((dhas (idFixKvs st kvs) "params" = false ∧
          c' = .obj (idFixKvs st kvs) ∧ iss = idFixIss st kvs) ∨
        (∃ p2 iss2,
          dhas (idFixKvs st kvs) "params" = true ∧
          fixParams (compTypeOf kvs) (expectedIdOf st kvs)
              ((dget (idFixKvs st kvs) "params").getD .null) = .ok (p2, iss2) ∧
          c' = .obj (dset (idFixKvs st kvs) "params" p2) ∧
          iss = idFixIss st kvs ++ iss2)) := by
  rw [processComponent_obj_eq] at h
  split at h
  · rename_i hh
    split at h
    · rename_i hp
      split at h
      · simp at h
      · rename_i p2 iss2 hfix
        simp only [Except.ok.injEq, Prod.mk.injEq] at h
        obtain ⟨h1, h2, h3⟩ := h
        exact ⟨hh, h2.symm, Or.inr ⟨p2, iss2, hp, hfix, h1.symm, h3.symm⟩⟩
    · rename_i hp
      simp only [Except.ok.injEq, Prod.mk.injEq] at h
      obtain ⟨h1, h2, h3⟩ := h
      exact ⟨hh, h2.symm,
        Or.inl ⟨Bool.not_eq_true _ ▸ by simpa using hp, h1.symm, h3.symm⟩⟩
  · rename_i hh
    simp at h

/-- A successful `processComponent` run needs a dict component. -/
theorem processComponent_ok_obj {st : List (JVal × Nat)} {c c' : JVal}
    {st' : List (JVal × Nat)} {iss : List String}
    (h : processComponent st c = .ok (c', st', iss)) :
    ∃ kvs, c = .obj kvs := by
  cases c <;> simp [processComponent] at h <;> exact ⟨_, rfl⟩

/-- The repaired component keeps its `type` and carries the expected id. -/
theorem processComponent_kind_id {st : List (JVal × Nat)}
    {kvs : List (String × JVal)} {c' : JVal} {st' : List (JVal × Nat)}
    {iss : List String}
    (h : processComponent st (.obj kvs) = .ok (c', st', iss)) :
    ∃ kvs', c' = .obj kvs' ∧
      dget kvs' "type" = dget kvs "type" ∧
      dget kvs' "id" = some (.str (expectedIdOf st kvs)) := by
  obtain ⟨_, _, hcase⟩ := processComponent_parts h
  rcases hcase with ⟨_, hc, _⟩ | ⟨p2, iss2, _, _, hc, _⟩
  · refine ⟨idFixKvs st kvs, hc, ?_, ?_⟩
    · exact idFixKvs_frame st kvs (by decide)
    · exact idFixKvs_id st kvs
  · refine ⟨dset (idFixKvs st kvs) "params" p2, hc, ?_, ?_⟩
    · rw [dget_dset_ne _ _ (by decide : ("type" : String) ≠ "params")]
      exact idFixKvs_frame st kvs (by decide)
    · rw [dget_dset_ne _ _ (by decide : ("id" : String) ≠ "params")]
      exact idFixKvs_id st kvs

/-! ### The loop over all components -/

theorem processComponents_cons_elim {st : List (JVal × Nat)} {c : JVal}
    {rest : List JVal} {xs' : List JVal} {iss : List String}
    (h : processComponents st (c :: rest) = .ok (xs', iss)) :
    ∃ c' st1 iss1 rest' iss2,
      processComponent st c = .ok (c', st1, iss1) ∧
      processComponents st1 rest = .ok (rest', iss2) ∧
      xs' = c' :: rest' ∧ iss = iss1 ++ iss2 := by
  unfold processComponents at h
  split at h
  · simp at h
  · rename_i c' st1 iss1 hpc
    split at h
    · simp at h
    · rename_i rest' iss2 hrest
      simp only [Except.ok.injEq, Prod.mk.injEq] at h
      exact ⟨c', st1, iss1, rest', iss2, hpc, hrest, h.1.symm, h.2.symm⟩

theorem isKindB_obj (K : String) (kvs : List (String × JVal)) :
    isKindB K (.obj kvs) =
      match compTypeOf kvs with
      | .str s => s == K
      | _ => false := rfl

/-- The repaired component has the kind of its source. -/
theorem processComponent_isKindB {st : List (JVal × Nat)} {c c' : JVal}
    {st' : List (JVal × Nat)} {iss : List String} (K : String)
    (h : processComponent st c = .ok (c', st', iss)) :
    isKindB K c' = isKindB K c := by
  obtain ⟨kvs, rfl⟩ := processComponent_ok_obj h
  obtain ⟨kvs', rfl, ht, _⟩ := processComponent_kind_id h
  rw [isKindB_obj, isKindB_obj]
  unfold compTypeOf
  rw [ht]

/-- **C3's engine**: after a successful run of the loop from counter
state `st`, the kind-`K` components carry the ids
`K_(n+1), …, K_(n+m)` in order, where `n` is the incoming counter of
kind `K` and `m` the number of kind-`K` components. -/
theorem processComponents_ids (K : String) :
    ∀ (xs : List JVal) (st : List (JVal × Nat)) (xs' : List JVal)
      (iss : List String),
      processComponents st xs = .ok (xs', iss) →
      idsOfKind K xs' =
        (List.range (xs.countP (isKindB K))).map
          (fun i => some (.str (K ++ "_" ++
            toString (countersGetN st (.str K) + i + 1)))) := by
  intro xs
  induction xs with
  | nil =>
    intro st xs' iss h
    simp only [processComponents, Except.ok.injEq, Prod.mk.injEq] at h
    rw [← h.1]
    simp [idsOfKind]
  | cons c rest ih =>
    intro st xs' iss h
    obtain ⟨c', st1, iss1, rest', iss2, hpc, hrest, hxs, _⟩ :=
      processComponents_cons_elim h
    subst hxs
    obtain ⟨kvs, rfl⟩ := processComponent_ok_obj hpc
    obtain ⟨hh, hst1, _⟩ := processComponent_parts hpc
    obtain ⟨kvs', rfl, htype, hid⟩ := processComponent_kind_id hpc
    have hkind := processComponent_isKindB K hpc
    by_cases hK : isKindB K (.obj kvs) = true
    · have hkstr : compTypeOf kvs = .str K := by
        rw [isKindB_obj] at hK
        cases hct : compTypeOf kvs <;> rw [hct] at hK <;> simp_all
      have hidK : dget kvs' "id" =
          some (.str (K ++ "_" ++
            toString (countersGetN st (.str K) + 1))) := by
        rw [hid]
        unfold expectedIdOf
        rw [hkstr]
        rfl
      have hst1K : countersGetN st1 (.str K) =
          countersGetN st (.str K) + 1 := by
        rw [hst1, hkstr]
        exact countersGetN_set_self st _ K
      have hih := ih st1 rest' iss2 hrest
      rw [hst1K] at hih
      have hkind' : isKindB K (.obj kvs') = true := by rw [hkind]; exact hK
      have hcount : (JVal.obj kvs :: rest).countP (isKindB K) =
          rest.countP (isKindB K) + 1 := by
        simp [List.countP_cons, hK]
      have hhead : idOfC (.obj kvs') =
          some (.str (K ++ "_" ++
            toString (countersGetN st (.str K) + 1))) := by
        simp only [idOfC, topField]
        exact hidK
      rw [hcount]
      simp only [idsOfKind, List.filter_cons, hkind', if_true, List.map_cons]
      rw [List.range_succ_eq_map, List.map_cons, List.map_map]
      rw [List.cons.injEq]
      refine ⟨?_, ?_⟩
      · rw [hhead]
      · show idsOfKind K rest' = _
        rw [hih]
        refine List.map_congr_left (fun a ha => ?_)
        have harith : countersGetN st (.str K) + 1 + a + 1 =
            countersGetN st (.str K) + Nat.succ a + 1 := by omega
        simp only [Function.comp]
        rw [harith]
    · have hkind' : isKindB K (.obj kvs') = false := by rw [hkind]; simpa using hK
      have hne : compTypeOf kvs ≠ .str K := by
        intro hh
        rw [isKindB_obj, hh] at hK
        simp at hK
      have hst1K : countersGetN st1 (.str K) = countersGetN st (.str K) := by
        rw [hst1]
        exact countersGetN_set_other st _ hne
      have hih := ih st1 rest' iss2 hrest
      rw [hst1K] at hih
      have hcount : (JVal.obj kvs :: rest).countP (isKindB K) =
          rest.countP (isKindB K) := by
        simp [List.countP_cons, hK]
      rw [hcount]
      simp only [idsOfKind, List.filter_cons, hkind', if_false, Bool.false_eq_true]
      exact hih

/-! ### Characterization of `validate_and_fix_json` -/

theorem validate_noLaser {kvs : List (String × JVal)}
    (hl : dhas kvs "laser" = false) :
    validate_and_fix_json (.obj kvs) =
      .ok (none, ["Missing \x27laser\x27 root object"]) := by
  simp [validate_and_fix_json, pyContains, hl]

theorem validate_obj_arr {kvs : List (String × JVal)} {xs : List JVal}
    (hl : dhas kvs "laser" = true)
    (hc : dget kvs "components" = some (.arr xs)) :
    validate_and_fix_json (.obj kvs) =
      (match processComponents [] xs with
       | .error e => .error e
       | .ok (xs', iss1) =>
         .ok (some (.obj (dset kvs "components" (.arr xs'))), iss1)) := by
  have hhc : dhas kvs "components" = true := by simp [dhas, hc]
  cases hp : processComponents [] xs with
  | error e =>
    simp [validate_and_fix_json, pyContains, hl, hhc, ensureComponents,
      pyGetD, hc, hp]
  | ok pr =>
    obtain ⟨xs', iss1⟩ := pr
    simp [validate_and_fix_json, pyContains, hl, hhc, ensureComponents,
      pyGetD, pySetItem, hc, hp]

theorem validate_obj_insert {kvs : List (String × JVal)}
    (hl : dhas kvs "laser" = true) (hc : dget kvs "components" = none) :
    validate_and_fix_json (.obj kvs) =
      .ok (some (.obj (dset kvs "components" (.arr []))),
           ["Added missing \x27components\x27 array"]) := by
  have hhc : dhas kvs "components" = false := by simp [dhas, hc]
  have hg : dget (dset kvs "components" (.arr [])) "components" =
      some (.arr []) := dget_dset_self kvs "components" (.arr [])
  have hcollapse :
      dset (dset kvs "components" (.arr [])) "components" (.arr []) =
        dset kvs "components" (.arr []) := dset_eq_of_dget hg
  simp [validate_and_fix_json, pyContains, hl, hhc, ensureComponents,
    pySetItem, pyGetD, hg, hcollapse, processComponents]

theorem validate_obj_nonarr_eq {kvs : List (String × JVal)} {v : JVal}
    (hl : dhas kvs "laser" = true) (hc : dget kvs "components" = some v)
    (hv : isArrB v = false) :
    validate_and_fix_json (.obj kvs) =
      (match pyIterElems v with
       | .error e => .error e
       | .ok elems =>
         match processComponents [] elems with
         | .error e => .error e
         | .ok _ => .ok (some (.obj kvs), [])) := by
  have hhc : dhas kvs "components" = true := by simp [dhas, hc]
  cases v with
  | arr xs => simp [isArrB] at hv
  | str s =>
    cases hp : processComponents []
        (s.data.map fun c => JVal.str (String.mk [c])) with
    | error e =>
      simp [validate_and_fix_json, pyContains, hl, hhc, ensureComponents,
        pyGetD, hc, pyIterElems, hp]
    | ok pr =>
      simp [validate_and_fix_json, pyContains, hl, hhc, ensureComponents,
        pyGetD, hc, pyIterElems, hp]
  | obj okvs =>
    cases hp : processComponents []
        (okvs.map fun kv => JVal.str kv.1) with
    | error e =>
      simp [validate_and_fix_json, pyContains, hl, hhc, ensureComponents,
        pyGetD, hc, pyIterElems, hp]
    | ok pr =>
      simp [validate_and_fix_json, pyContains, hl, hhc, ensureComponents,
        pyGetD, hc, pyIterElems, hp]
  | null =>
    simp [validate_and_fix_json, pyContains, hl, hhc, ensureComponents,
      pyGetD, hc, pyIterElems]
  | bool b =>
    simp [validate_and_fix_json, pyContains, hl, hhc, ensureComponents,
      pyGetD, hc, pyIterElems]
  | int n =>
    simp [validate_and_fix_json, pyContains, hl, hhc, ensureComponents,
      pyGetD, hc, pyIterElems]
  | float q =>
    simp [validate_and_fix_json, pyContains, hl, hhc, ensureComponents,
      pyGetD, hc, pyIterElems]

/-- A processed component list starting with a string element (as
produced by iterating a string or dict) raises `AttributeError`. -/
theorem processComponents_str_head (st : List (JVal × Nat)) (t : String)
    (rest : List JVal) :
    processComponents st (.str t :: rest) = .error .attributeError := by
  simp [processComponents, processComponent]

/-- A document that validates to a fixed result is a dict. -/
theorem validate_ok_some_obj {d d' : JVal} {iss : List String}
    (h : validate_and_fix_json d = .ok (some d', iss)) :
    ∃ kvs, d = .obj kvs := by
  cases d with
  | obj kvs => exact ⟨kvs, rfl⟩
  | null => simp [validate_and_fix_json, pyContains] at h
  | bool b => simp [validate_and_fix_json, pyContains] at h
  | int n => simp [validate_and_fix_json, pyContains] at h
  | float q => simp [validate_and_fix_json, pyContains] at h
  | str s =>
    by_cases h1 : substrB "laser".data s.data = true
    · by_cases h2 : substrB "components".data s.data = true
      · simp [validate_and_fix_json, pyContains, h1, h2, ensureComponents,
          pyGetD] at h
      · simp [validate_and_fix_json, pyContains, h1, h2, ensureComponents,
          pySetItem] at h
    · simp [validate_and_fix_json, pyContains, h1] at h
  | arr xs =>
    by_cases h1 : (xs.any fun x => pyEq x (.str "laser")) = true
    · by_cases h2 : (xs.any fun x => pyEq x (.str "components")) = true
      · simp [validate_and_fix_json, pyContains, h1, h2, ensureComponents,
          pyGetD] at h
      · simp [validate_and_fix_json, pyContains, h1, h2, ensureComponents,
          pySetItem] at h
    · simp [validate_and_fix_json, pyContains, h1] at h

/-- In the non-array-components case, success means the empty iteration:
the document passes through untouched and `components` was the empty
string or the empty dict. -/
theorem validate_obj_nonarr_ok {kvs : List (String × JVal)} {v d' : JVal}
    {iss : List String} (hl : dhas kvs "laser" = true)
    (hc : dget kvs "components" = some v) (hv : isArrB v = false)
    (h : validate_and_fix_json (.obj kvs) = .ok (some d', iss)) :
    d' = .obj kvs ∧ iss = [] ∧ (v = .str "" ∨ v = .obj []) := by
  rw [validate_obj_nonarr_eq hl hc hv] at h
  split at h
  · simp at h
  · rename_i elems hiter
    split at h
    · simp at h
    · rename_i r hproc
      simp only [Except.ok.injEq, Prod.mk.injEq, Option.some.injEq] at h
      refine ⟨h.1.symm, h.2.symm, ?_⟩
      cases v with
      | arr xs => simp [isArrB] at hv
      | null => simp [pyIterElems] at hiter
      | bool b => simp [pyIterElems] at hiter
      | int n => simp [pyIterElems] at hiter
      | float q => simp [pyIterElems] at hiter
      | str s =>
        obtain ⟨sd⟩ := s
        cases sd with
        | nil => exact Or.inl rfl
        | cons ch cs =>
          simp only [pyIterElems, Except.ok.injEq] at hiter
          rw [List.map_cons] at hiter
          rw [← hiter, processComponents_str_head] at hproc
          simp at hproc
      | obj okvs =>
        cases okvs with
        | nil => exact Or.inr rfl
        | cons kv rest =>
          simp only [pyIterElems, Except.ok.injEq, List.map_cons] at hiter
          rw [← hiter, processComponents_str_head] at hproc
          simp at hproc

theorem componentsOf_dset (kvs : List (String × JVal)) (xs' : List JVal) :
    componentsOf (.obj (dset kvs "components" (.arr xs'))) = xs' := by
  simp [componentsOf, topField, dget_dset_self]

/-- The per-document identifier invariant: after a successful
`validate_and_fix_json`, the kind-`K` components carry the ids
`K_1, …, K_m` in document order. -/
theorem validate_ids {d d' : JVal} {iss : List String}
    (h : validate_and_fix_json d = .ok (some d', iss)) (K : String) :
    idsOfKind K (componentsOf d') =
      idSeq K ((componentsOf d').countP (isKindB K)) := by
  obtain ⟨kvs, rfl⟩ := validate_ok_some_obj h
  by_cases hl : dhas kvs "laser" = true
  · cases hc : dget kvs "components" with
    | none =>
      rw [validate_obj_insert hl hc] at h
      simp only [Except.ok.injEq, Prod.mk.injEq, Option.some.injEq] at h
      rw [← h.1, componentsOf_dset]
      simp [idsOfKind, idSeq]
    | some v =>
      by_cases hv : isArrB v = true
      · obtain ⟨xs, rfl⟩ : ∃ xs, v = .arr xs := by
          cases v <;> simp [isArrB] at hv <;> exact ⟨_, rfl⟩
        rw [validate_obj_arr hl hc] at h
        cases hp : processComponents [] xs with
        | error e => rw [hp] at h; simp at h
        | ok pr =>
          obtain ⟨xs', iss1⟩ := pr
          rw [hp] at h
          simp only [Except.ok.injEq, Prod.mk.injEq, Option.some.injEq] at h
          rw [← h.1, componentsOf_dset]
          have hids := processComponents_ids K xs [] xs' iss1 hp
          have hcnt : xs'.countP (isKindB K) = xs.countP (isKindB K) := by
            have hlen := congrArg List.length hids
            simp only [idsOfKind, List.length_map, List.length_range,
              List.countP_eq_length_filter] at hlen
            simp only [List.countP_eq_length_filter]
            exact hlen
          rw [hids, hcnt, idSeq]
          refine List.map_congr_left (fun a ha => ?_)
          have : countersGetN [] (.str K) + a + 1 = a + 1 := by
            simp [countersGetN]
          rw [this]
      · obtain ⟨hd', hiss, _⟩ :=
          validate_obj_nonarr_ok hl hc (by simpa using hv) h
        subst hd'
        have : componentsOf (.obj kvs) = [] := by
          simp only [componentsOf, topField]
          rw [hc]
          cases v <;> simp_all [isArrB]
        rw [this]
        simp [idsOfKind, idSeq]
  · rw [validate_noLaser (by simpa using hl)] at h
    simp at h

/-- **C3.**  For every output of `validate_and_fix_json` and every kind
`K`, the kind-`K` components carry ids `K_1, …, K_m` in document order
with no gaps or duplicates (the per-kind counter starts at 1, recomputes
the expected id and overwrites a differing one, logging the change); in
particular ids `A_9, A_3, B_77` (kinds A, A, B) become `A_1, A_2, B_1`,
with the three overwrites logged. -/
theorem C3_identifier_invariant :
    (∀ (d d' : JVal) (iss : List String),
        validate_and_fix_json d = .ok (some d', iss) →
        ∀ K : String,
          idsOfKind K (componentsOf d') =
            idSeq K ((componentsOf d').countP (isKindB K))) ∧
      validate_and_fix_json
          (.obj [("laser", .int 1), ("components", .arr [
            .obj [("type", .str "A"), ("id", .str "A_9")],
            .obj [("type", .str "A"), ("id", .str "A_3")],
            .obj [("type", .str "B"), ("id", .str "B_77")]])]) =
        .ok (some (.obj [("laser", .int 1), ("components", .arr [
            .obj [("type", .str "A"), ("id", .str "A_1")],
            .obj [("type", .str "A"), ("id", .str "A_2")],
            .obj [("type", .str "B"), ("id", .str "B_1")]])]),
          ["Fixed ID: A_9 → A_1", "Fixed ID: A_3 → A_2",
           "Fixed ID: B_77 → B_1"]) :=
  ⟨fun _ _ _ h K => validate_ids h K, by rfl⟩

/-- Witness for C3: the invariant applied to the concrete scenario
document, with the validation hypothesis discharged by computation. -/
theorem C3_identifier_invariant_witness :
    idsOfKind "A"
        (componentsOf (.obj [("laser", .int 1), ("components", .arr [
          .obj [("type", .str "A"), ("id", .str "A_1")],
          .obj [("type", .str "A"), ("id", .str "A_2")],
          .obj [("type", .str "B"), ("id", .str "B_1")]])])) =
      idSeq "A"
        ((componentsOf (.obj [("laser", .int 1), ("components", .arr [
          .obj [("type", .str "A"), ("id", .str "A_1")],
          .obj [("type", .str "A"), ("id", .str "A_2")],
          .obj [("type", .str "B"), ("id", .str "B_1")]])])).countP
          (isKindB "A")) :=
  C3_identifier_invariant.1
    (.obj [("laser", .int 1), ("components", .arr [
      .obj [("type", .str "A"), ("id", .str "A_9")],
      .obj [("type", .str "A"), ("id", .str "A_3")],
      .obj [("type", .str "B"), ("id", .str "B_77")]])])
    (.obj [("laser", .int 1), ("components", .arr [
      .obj [("type", .str "A"), ("id", .str "A_1")],
      .obj [("type", .str "A"), ("id", .str "A_2")],
      .obj [("type", .str "B"), ("id", .str "B_1")]])])
    ["Fixed ID: A_9 → A_1", "Fixed ID: A_3 → A_2", "Fixed ID: B_77 → B_1"]
    (by rfl) "A"

/-- Any fixed document keeps the `laser` key and a `components` key; the
latter holds an array except in the empty-string/empty-dict pass-through
cases. -/
theorem validate_ok_keys {d d' : JVal} {iss : List String}
    (h : validate_and_fix_json d = .ok (some d', iss)) :
    hasKeyB d' "laser" = true ∧ hasKeyB d' "components" = true ∧
      (∃ v, topField d' "components" = some v ∧
        (isArrB v = true ∨ v = .str "" ∨ v = .obj [])) := by
  obtain ⟨kvs, rfl⟩ := validate_ok_some_obj h
  by_cases hl : dhas kvs "laser" = true
  · cases hc : dget kvs "components" with
    | none =>
      rw [validate_obj_insert hl hc] at h
      simp only [Except.ok.injEq, Prod.mk.injEq, Option.some.injEq] at h
      rw [← h.1]
      refine ⟨?_, ?_, .arr [], ?_, Or.inl rfl⟩
      · simp only [hasKeyB, topField]
        rw [dget_dset_ne _ _ (by decide : ("laser" : String) ≠ "components")]
        exact hl
      · simp [hasKeyB, topField, dget_dset_self]
      · simp [topField, dget_dset_self]
    | some v =>
      by_cases hv : isArrB v = true
      · obtain ⟨xs, rfl⟩ : ∃ xs, v = .arr xs := by
          cases v <;> simp [isArrB] at hv <;> exact ⟨_, rfl⟩
        rw [validate_obj_arr hl hc] at h
        cases hp : processComponents [] xs with
        | error e => rw [hp] at h; simp at h
        | ok pr =>
          obtain ⟨xs', iss1⟩ := pr
          rw [hp] at h
          simp only [Except.ok.injEq, Prod.mk.injEq, Option.some.injEq] at h
          rw [← h.1]
          refine ⟨?_, ?_, .arr xs', ?_, Or.inl rfl⟩
          · simp only [hasKeyB, topField]
            rw [dget_dset_ne _ _
              (by decide : ("laser" : String) ≠ "components")]
            exact hl
          · simp [hasKeyB, topField, dget_dset_self]
          · simp [topField, dget_dset_self]
      · obtain ⟨hd', _, hshape⟩ :=
          validate_obj_nonarr_ok hl hc (by simpa using hv) h
        subst hd'
        refine ⟨hl, ?_, v, ?_, Or.inr hshape⟩
        · simp [hasKeyB, topField, dhas, hc]
        · simp [topField, hc]
  · rw [validate_noLaser (by simpa using hl)] at h
    simp at h

theorem generate_json_eq (text : String) :
    generate_json text =
      (match validate_and_fix_json (extract_json text) with
       | .ok (some fixed, issues) => (fixed, issues)
       | .ok (none, _) =>
         (default_json, ["Created default JSON due to validation errors"])
       | .error e =>
         (default_json,
          ["Error occurred: " ++ pyErrStr e ++ ". Created default JSON."])) :=
  rfl

/-- **C1, amended.**  For every input text, the pipeline is total and
returns a document carrying the `laser` root and a `components` key
whose value is an array, except in the pass-through case where the
parsed input supplied an empty string or empty dict; no parse or schema
failure escapes to the caller. -/
theorem C1_pipeline_totality (text : String) :
    hasKeyB (generate_json text).1 "laser" = true ∧
      hasKeyB (generate_json text).1 "components" = true ∧
      (∃ v, topField (generate_json text).1 "components" = some v ∧
        (isArrB v = true ∨ v = .str "" ∨ v = .obj [])) := by
  rw [generate_json_eq]
  cases hv : validate_and_fix_json (extract_json text) with
  | error e => exact ⟨rfl, rfl, .arr [], rfl, Or.inl rfl⟩
  | ok pr =>
    obtain ⟨od, iss⟩ := pr
    cases od with
    | none => exact ⟨rfl, rfl, .arr [], rfl, Or.inl rfl⟩
    | some d' => exact validate_ok_keys hv

/-- For a numeric rotation value, Python's `rotation in [0,90,180,270]`
agrees with numeric membership in the permitted set. -/
theorem pyInRotList_num {v : JVal} {q : ℚ} (h : pyNumQ v = some q) :
    pyInRotList v = rotValInSetB v := by
  simp only [pyInRotList, rotValInSetB, h, List.any_cons, List.any_nil,
    Bool.or_false]
  rw [pyEq_num_int h 0, pyEq_num_int h 90, pyEq_num_int h 180,
    pyEq_num_int h 270]
  simp [Bool.or_assoc]

theorem rotValInSetB_int_closest (nq : ℚ) :
    rotValInSetB (.int (closestRotation nq)) = true := by
  rcases closestRotation_mem nq with h | h | h | h <;>
    rw [h] <;> simp [rotValInSetB, pyNumQ]

/-- **C4.**  A numeric `component_rotated` value that is not (numerically)
one of 0/90/180/270 is replaced by the permitted value nearest (by
absolute difference) to `value mod 360`, with exact ties resolved toward
the smaller permitted value, and the change is logged; in particular a
rotation of 47 snaps to 90. -/
theorem C4_rotation_snap :
    (∀ (cid : String) (pkvs : List (String × JVal)) (p' : JVal)
        (iss : List String) (v : JVal) (q : ℚ),
        dget pkvs "component_rotated" = some v →
        jnumToQ v = some q →
        rotValInSetB v = false →
        fixRotation cid (.obj pkvs) = .ok (p', iss) →
        pget p' "component_rotated" =
            some (.int (closestRotation (pyMod360 q))) ∧
          iss = ["Fixed rotation in " ++ cid ++ ": " ++ pyStr v ++ " → " ++
                 toString (closestRotation (pyMod360 q))] ∧
          (closestRotation (pyMod360 q) = 0 ∨
            closestRotation (pyMod360 q) = 90 ∨
            closestRotation (pyMod360 q) = 180 ∨
            closestRotation (pyMod360 q) = 270) ∧
          (∀ r' : ℤ, (r' = 0 ∨ r' = 90 ∨ r' = 180 ∨ r' = 270) →
            |(closestRotation (pyMod360 q) : ℚ) - pyMod360 q| ≤
                |(r' : ℚ) - pyMod360 q| ∧
              (|(r' : ℚ) - pyMod360 q| =
                  |(closestRotation (pyMod360 q) : ℚ) - pyMod360 q| →
                closestRotation (pyMod360 q) ≤ r'))) ∧
      validate_and_fix_json
          (.obj [("laser", .int 1), ("components", .arr [
            .obj [("type", .str "mirror"), ("id", .str "mirror_1"),
                  ("params", .obj [("component_rotated", .int 47)])]])]) =
        .ok (some (.obj [("laser", .int 1), ("components", .arr [
            .obj [("type", .str "mirror"), ("id", .str "mirror_1"),
                  ("params", .obj [("component_rotated", .int 90)])]])]),
          ["Fixed rotation in mirror_1: 47 → 90"]) := by
  constructor
  · intro cid pkvs p' iss v q hget hnum hnotin h
    have hguard : (!isInstInt v || !pyInRotList v) = true := by
      rw [pyInRotList_num hnum, hnotin]
      simp
    have hh : dhas pkvs "component_rotated" = true := by simp [dhas, hget]
    have h2 : fixRotation cid (.obj pkvs) =
        .ok (.obj (dset pkvs "component_rotated"
               (.int (closestRotation (pyMod360 q)))),
             ["Fixed rotation in " ++ cid ++ ": " ++ pyStr v ++ " → " ++
              toString (closestRotation (pyMod360 q))]) := by
      simp [fixRotation, pyContains, pyGetItem, pySetItem, hget, hh, hguard,
        hnum]
    rw [h2] at h
    simp only [Except.ok.injEq, Prod.mk.injEq] at h
    rw [← h.1, ← h.2]
    refine ⟨by simp [pget, dget_dset_self], rfl, closestRotation_mem _,
      fun r' hr' => ⟨closestRotation_nearest _ r' hr', fun he =>
        closestRotation_tie _ r' hr' he⟩⟩
  · with_unfolding_all rfl

/-- Witness for C4: the general rule applied to the concrete rotation 47
(all hypotheses discharged by computation). -/
theorem C4_rotation_snap_witness :
    pget (.obj [("component_rotated", .int 90)]) "component_rotated" =
      some (.int (closestRotation (pyMod360 47))) :=
  (C4_rotation_snap.1 "mirror_1" [("component_rotated", .int 47)]
    (.obj [("component_rotated", .int 90)])
    ["Fixed rotation in mirror_1: 47 → 90"] (.int 47) 47 rfl rfl
    (by with_unfolding_all rfl) (by with_unfolding_all rfl)).1

/-- A non-numeric rotation value is not touched and produces no log
entry (the fix is guarded by `isinstance(rotation, (int, float))`). -/
theorem fixRotation_nonnum (cid : String) (pkvs : List (String × JVal))
    {v : JVal} (hget : dget pkvs "component_rotated" = some v)
    (hq : jnumToQ v = none) :
    fixRotation cid (.obj pkvs) = .ok (.obj pkvs, []) := by
  have hh : dhas pkvs "component_rotated" = true := by simp [dhas, hget]
  have hinst : isInstInt v = false := by
    cases v <;> simp_all [isInstInt, jnumToQ, pyNumQ]
  have hguard : (!isInstInt v || !pyInRotList v) = true := by simp [hinst]
  simp [fixRotation, pyContains, pyGetItem, hget, hh, hguard, hq]

/-- After `fixRotation`, every numeric rotation value is numerically one
of 0/90/180/270. -/
theorem fixRotation_closure {cid : String} {p p' : JVal} {iss : List String}
    (h : fixRotation cid p = .ok (p', iss)) {v : JVal} {q : ℚ}
    (hv : pget p' "component_rotated" = some v) (hq : pyNumQ v = some q) :
    rotValInSetB v = true := by
  by_cases hobj : isObjB p = true
  · obtain ⟨pkvs, rfl⟩ := (isObjB_eq_true_iff p).mp hobj
    rw [fixRotation_obj] at h
    split at h
    · rename_i hnone
      simp only [Except.ok.injEq, Prod.mk.injEq] at h
      rw [← h.1] at hv
      simp only [pget] at hv
      rw [hnone] at hv
      simp at hv
    · rename_i rotation hrot
      split at h
      · split at h
        · rename_i q0 hq0
          simp only [Except.ok.injEq, Prod.mk.injEq] at h
          rw [← h.1] at hv
          simp only [pget] at hv
          rw [dget_dset_self] at hv
          obtain rfl : JVal.int (closestRotation (pyMod360 q0)) = v := by
            simpa using hv
          exact rotValInSetB_int_closest _
        · rename_i hq0
          simp only [Except.ok.injEq, Prod.mk.injEq] at h
          rw [← h.1] at hv
          simp only [pget] at hv
          rw [hrot] at hv
          obtain rfl : rotation = v := by simpa using hv
          rw [show jnumToQ rotation = pyNumQ rotation from rfl, hq] at hq0
          simp at hq0
      · rename_i hguard
        simp only [Except.ok.injEq, Prod.mk.injEq] at h
        rw [← h.1] at hv
        simp only [pget] at hv
        rw [hrot] at hv
        obtain rfl : rotation = v := by simpa using hv
        simp only [Bool.or_eq_true, Bool.not_eq_true', not_or,
          Bool.not_eq_false] at hguard
        rw [← pyInRotList_num hq]
        exact hguard.2
  · obtain ⟨hp, _⟩ := fixRotation_ok_nonobj h (by simpa using hobj)
    rw [hp] at hv
    cases p <;> simp_all [pget, isObjB]

/-- The closure survives the whole params-repair chain. -/
theorem fixParams_rot_closure {t : JVal} {cid : String} {p p3 : JVal}
    {iss : List String} (h : fixParams t cid p = .ok (p3, iss)) {v : JVal}
    {q : ℚ} (hv : pget p3 "component_rotated" = some v)
    (hq : pyNumQ v = some q) : rotValInSetB v = true := by
  unfold fixParams at h
  split at h
  · simp at h
  · rename_i p1 a ha
    split at h
    · simp at h
    · rename_i p2 b hb
      split at h
      · simp at h
      · rename_i p3' c hc
        simp only [Except.ok.injEq, Prod.mk.injEq] at h
        obtain ⟨_, f3⟩ := fixLens_frame hc
        rw [← h.1] at hv
        rw [f3 "component_rotated" (by decide) (by decide) (by decide)
          (by decide)] at hv
        exact fixRotation_closure hb hv hq

/-- The closure at the level of one repaired component. -/
theorem processComponent_rot_closure {st : List (JVal × Nat)} {c c' : JVal}
    {st' : List (JVal × Nat)} {iss : List String}
    (h : processComponent st c = .ok (c', st', iss)) {v : JVal} {q : ℚ}
    (hv : paramField c' "component_rotated" = some v)
    (hq : pyNumQ v = some q) : rotValInSetB v = true := by
  obtain ⟨kvs, rfl⟩ := processComponent_ok_obj h
  obtain ⟨_, _, hcase⟩ := processComponent_parts h
  rcases hcase with ⟨hnp, hc, _⟩ | ⟨p2, iss2, hp, hfix, hc, _⟩
  · rw [hc] at hv
    simp only [paramField, paramsOf, topField] at hv
    have hnone : dget (idFixKvs st kvs) "params" = none := by
      simpa [dhas, Option.isSome_iff_exists] using hnp
    rw [hnone] at hv
    simp at hv
  · rw [hc] at hv
    simp only [paramField, paramsOf, topField] at hv
    rw [dget_dset_self] at hv
    have hv' : pget p2 "component_rotated" = some v := by
      cases p2 <;> simp_all [pget]
    exact fixParams_rot_closure hfix hv' hq

/-- The closure over the whole component loop. -/
theorem processComponents_rot_closure :
    ∀ (xs : List JVal) (st : List (JVal × Nat)) (xs' : List JVal)
      (iss : List String), processComponents st xs = .ok (xs', iss) →
      ∀ c' ∈ xs', ∀ (v : JVal) (q : ℚ),
        paramField c' "component_rotated" = some v →
        pyNumQ v = some q → rotValInSetB v = true := by
  intro xs
  induction xs with
  | nil =>
    intro st xs' iss h c' hc'
    simp only [processComponents, Except.ok.injEq, Prod.mk.injEq] at h
    rw [← h.1] at hc'
    simp at hc'
  | cons c rest ih =>
    intro st xs' iss h c' hc' v q hv hq
    obtain ⟨c₀, st1, iss1, rest', iss2, hpc, hrest, hxs, _⟩ :=
      processComponents_cons_elim h
    subst hxs
    rcases List.mem_cons.mp hc' with rfl | hmem
    · exact processComponent_rot_closure hpc hv hq
    · exact ih st1 rest' iss2 hrest c' hmem v q hv hq

/-- The closure for every document fixed by `validate_and_fix_json`. -/
theorem validate_rot_closure {d d' : JVal} {iss : List String}
    (h : validate_and_fix_json d = .ok (some d', iss)) :
    ∀ c' ∈ componentsOf d', ∀ (v : JVal) (q : ℚ),
      paramField c' "component_rotated" = some v →
      pyNumQ v = some q → rotValInSetB v = true := by
  obtain ⟨kvs, rfl⟩ := validate_ok_some_obj h
  by_cases hl : dhas kvs "laser" = true
  · cases hc : dget kvs "components" with
    | none =>
      rw [validate_obj_insert hl hc] at h
      simp only [Except.ok.injEq, Prod.mk.injEq, Option.some.injEq] at h
      rw [← h.1, componentsOf_dset]
      intro c' hc'
      simp at hc'
    | some v0 =>
      by_cases hv0 : isArrB v0 = true
      · obtain ⟨xs, rfl⟩ : ∃ xs, v0 = .arr xs := by
          cases v0 <;> simp [isArrB] at hv0 <;> exact ⟨_, rfl⟩
        rw [validate_obj_arr hl hc] at h
        cases hp : processComponents [] xs with
        | error e => rw [hp] at h; simp at h
        | ok pr =>
          obtain ⟨xs', iss1⟩ := pr
          rw [hp] at h
          simp only [Except.ok.injEq, Prod.mk.injEq, Option.some.injEq] at h
          rw [← h.1, componentsOf_dset]
          exact processComponents_rot_closure xs [] xs' iss1 hp
      · obtain ⟨hd', _, _⟩ :=
          validate_obj_nonarr_ok hl hc (by simpa using hv0) h
        subst hd'
        have hemp : componentsOf (.obj kvs) = [] := by
          simp only [componentsOf, topField]
          rw [hc]
          cases v0 <;> simp_all [isArrB]
        rw [hemp]
        intro c' hc'
        simp at hc'
  · rw [validate_noLaser (by simpa using hl)] at h
    simp at h

/-- **C5, amended.**  In every document returned by the pipeline, every
`component_rotated` value that is numeric (int, float, or bool) is
numerically one of 0, 90, 180, 270; non-numeric rotation values (e.g.
strings) are passed through unchanged without a log entry. -/
theorem C5_rotation_closure :
    (∀ (text : String), ∀ c ∈ componentsOf (generate_json text).1,
        ∀ (v : JVal) (q : ℚ),
          paramField c "component_rotated" = some v →
          pyNumQ v = some q → rotValInSetB v = true) ∧
      (∀ (cid : String) (pkvs : List (String × JVal)) (v : JVal),
        dget pkvs "component_rotated" = some v →
        jnumToQ v = none →
        fixRotation cid (.obj pkvs) = .ok (.obj pkvs, [])) := by
  constructor
  · intro text c hc v q hv hq
    rw [generate_json_eq] at hc
    revert hc
    cases hval : validate_and_fix_json (extract_json text) with
    | error e =>
      intro hc
      simp [componentsOf, default_json, topField, dget] at hc
    | ok pr =>
      obtain ⟨od, iss⟩ := pr
      cases od with
      | none =>
        intro hc
        simp [componentsOf, default_json, topField, dget] at hc
      | some d' =>
        intro hc
        exact validate_rot_closure hval c hc v q hv hq
  · intro cid pkvs v hget hq
    exact fixRotation_nonnum cid pkvs hget hq

set_option maxRecDepth 8000 in
/-- Witness for C5: the snapped mirror document from the concrete
47-degree run satisfies the closure at its (numeric) rotation value. -/
theorem C5_rotation_closure_witness :
    rotValInSetB (.int 90) = true := by
  have hcomp : componentsOf
      (generate_json "\x7b\"laser\": 1, \"components\": [\x7b\"type\": \"mirror\", \"id\": \"mirror_1\", \"params\": \x7b\"component_rotated\": 47\x7d\x7d]\x7d").1 =
      [.obj [("type", .str "mirror"), ("id", .str "mirror_1"),
             ("params", .obj [("component_rotated", .int 90)])]] := by
    with_unfolding_all rfl
  exact C5_rotation_closure.1
    "\x7b\"laser\": 1, \"components\": [\x7b\"type\": \"mirror\", \"id\": \"mirror_1\", \"params\": \x7b\"component_rotated\": 47\x7d\x7d]\x7d"
    (.obj [("type", .str "mirror"), ("id", .str "mirror_1"),
           ("params", .obj [("component_rotated", .int 90)])])
    (hcomp ▸ List.mem_singleton.mpr rfl)
    (.int 90) 90 rfl rfl

/-- `f_m * 1e6` followed by `abs` on a numeric value: the result is a
number of value `|q * 1000000|`. -/
theorem pyMul_abs_num {v : JVal} {q : ℚ} (hq : pyNumQ v = some q) :
    ∃ prod w, pyMul1e6 v = .ok prod ∧ pyAbs prod = .ok w ∧
      pyNumQ w = some |q * 1000000| := by
  cases v with
  | int n =>
    simp only [pyNumQ, Option.some.injEq] at hq
    subst hq
    refine ⟨.int (n * 1000000), .int |n * 1000000|, rfl, rfl, ?_⟩
    simp only [pyNumQ, Option.some.injEq]
    push_cast
    ring_nf
  | float r =>
    simp only [pyNumQ, Option.some.injEq] at hq
    subst hq
    exact ⟨.float (r * 1000000), .float |r * 1000000|, rfl, rfl, rfl⟩
  | bool b =>
    simp only [pyNumQ, Option.some.injEq] at hq
    subst hq
    cases b
    · refine ⟨_, _, rfl, rfl, ?_⟩
      norm_num [pyNumQ]
    · refine ⟨_, _, rfl, rfl, ?_⟩
      norm_num [pyNumQ]
  | null => simp [pyNumQ] at hq
  | str s => simp [pyNumQ] at hq
  | arr xs => simp [pyNumQ] at hq
  | obj kvs => simp [pyNumQ] at hq

/-- `fixLensType` never fails on a dict and returns a dict. -/
theorem fixLensType_ok_obj (cid : String) (l : List (String × JVal)) :
    ∃ l2 iss2, fixLensType cid (.obj l) = .ok (.obj l2, iss2) := by
  rw [fixLensType_obj]
  cases h : dget l "type" with
  | none =>
    simp only [h]
    exact ⟨l, [], rfl⟩
  | some tv =>
    simp only [h]
    cases hl : dhas l "lensType" with
    | true =>
      simp only [hl, if_true]
      exact ⟨l, [], rfl⟩
    | false =>
      simp only [hl, Bool.false_eq_true, if_false]
      exact ⟨_, _, rfl⟩

/-- **C6.**  For every lens component whose params dict carries the legacy
key `f_m` with a numeric value `v = q`, the lens block rewrites the params
to carry `f_um = |q * 1000000|`, removes `f_m`, and logs the conversion
first among its messages; concretely, a lens with `f_m = -0.002` (i.e.
`-1/500`) comes out of `validate_and_fix_json` with params
`{"f_um": 2000.0}` and the single log entry
`"Converted f_m to f_um in lens_1"`. -/
theorem C6_fm_conversion :
    (∀ (t : JVal) (cid : String) (pkvs : List (String × JVal)) (v : JVal)
        (q : ℚ), pyEq t (.str "lens") = true → keysNodupB pkvs = true →
        dget pkvs "f_m" = some v → pyNumQ v = some q →
        ∃ (pkvs2 : List (String × JVal)) (iss2 : List String) (w : JVal),
          fixLens t cid (.obj pkvs) =
            .ok (.obj pkvs2, ("Converted f_m to f_um in " ++ cid) :: iss2) ∧
          dget pkvs2 "f_um" = some w ∧ pyNumQ w = some |q * 1000000| ∧
          dget pkvs2 "f_m" = none) ∧
      validate_and_fix_json
          (.obj [("laser", .obj []),
                 ("components", .arr [.obj
                   [("type", .str "lens"), ("id", .str "lens_1"),
                    ("params", .obj [("f_m", .float (-(1:ℚ)/500))])]])]) =
        .ok (some (.obj [("laser", .obj []),
                 ("components", .arr [.obj
                   [("type", .str "lens"), ("id", .str "lens_1"),
                    ("params", .obj [("f_um", .float 2000)])]])]),
             ["Converted f_m to f_um in lens_1"]) := by
  constructor
  · intro t cid pkvs v q ht hnd hget hq
    obtain ⟨prod, w, hm, ha, hw⟩ := pyMul_abs_num hq
    have hfm : fixFm cid (.obj pkvs) =
        .ok (.obj (ddel (dset pkvs "f_um" w) "f_m"),
             ["Converted f_m to f_um in " ++ cid]) := by
      rw [fixFm_obj, hget]
      simp only [hm, ha]
    obtain ⟨l2, iss2, hlt⟩ :=
      fixLensType_ok_obj cid (ddel (dset pkvs "f_um" w) "f_m")
    have hfl : fixLens t cid (.obj pkvs) =
        .ok (.obj l2, ("Converted f_m to f_um in " ++ cid) :: iss2) := by
      rw [fixLens_lens ht]
      simp only [hfm, hlt, List.singleton_append]
    obtain ⟨_, hframe⟩ := fixLensType_frame hlt
    have hum : dget l2 "f_um" = some w := by
      have hpr := hframe "f_um" (by decide) (by decide)
      simp only [pget] at hpr
      rw [hpr, dget_ddel_ne _ (by decide), dget_dset_self]
    have hfm0 : dget l2 "f_m" = none := by
      have hpr := hframe "f_m" (by decide) (by decide)
      simp only [pget] at hpr
      rw [hpr, dget_ddel_self (keysNodupB_dset "f_um" w hnd)]
    exact ⟨l2, iss2, w, hfl, hum, hw, hfm0⟩
  · with_unfolding_all rfl

/-- Witness for C6: a lens params dict `\x7b"f_m": 2.0\x7d` is converted,
with `f_um = |2 * 1000000|` present and `f_m` gone. -/
theorem C6_fm_conversion_witness :
    ∃ (pkvs2 : List (String × JVal)) (iss2 : List String) (w : JVal),
      fixLens (.str "lens") "lens_1"
          (.obj [("f_m", .float 2)]) =
        .ok (.obj pkvs2, ("Converted f_m to f_um in " ++ "lens_1") :: iss2) ∧
      dget pkvs2 "f_um" = some w ∧ pyNumQ w = some |(2:ℚ) * 1000000| ∧
      dget pkvs2 "f_m" = none :=
  C6_fm_conversion.1 (.str "lens") "lens_1" [("f_m", .float 2)]
    (.float 2) 2 rfl rfl rfl rfl

/-- Frame of one loop iteration: component keys other than `id` and
`params` are untouched, and param keys outside the six targeted ones are
untouched. -/
theorem processComponent_frame {st : List (JVal × Nat)}
    {kvs : List (String × JVal)} {c' : JVal} {st' : List (JVal × Nat)}
    {iss : List String}
    (h : processComponent st (.obj kvs) = .ok (c', st', iss)) :
    (∀ k, k ≠ "id" → k ≠ "params" → pget c' k = dget kvs k) ∧
      (dget kvs "params" = none → pget c' "params" = none) ∧
      (∀ p, dget kvs "params" = some p →
        ∃ p', pget c' "params" = some p' ∧ isObjB p' = isObjB p ∧
          ∀ k, k ≠ "alpha_deg" → k ≠ "component_rotated" → k ≠ "f_m" →
            k ≠ "f_um" → k ≠ "type" → k ≠ "lensType" →
            pget p' k = pget p k) := by
  obtain ⟨_, _, hcase⟩ := processComponent_parts h
  rcases hcase with ⟨hnp, hc, _⟩ | ⟨p2, iss2, hp, hfix, hc, _⟩
  · subst hc
    refine ⟨?_, ?_, ?_⟩
    · intro k hk1 _
      simp only [pget]
      exact idFixKvs_frame st kvs hk1
    · intro hnone
      simp only [pget]
      rw [idFixKvs_frame st kvs (by decide)]
      exact hnone
    · intro p hsome
      exfalso
      rw [dhas, idFixKvs_frame st kvs (by decide), hsome] at hnp
      simp at hnp
  · subst hc
    refine ⟨?_, ?_, ?_⟩
    · intro k hk1 hk2
      simp only [pget]
      rw [dget_dset_ne _ _ hk2]
      exact idFixKvs_frame st kvs hk1
    · intro hnone
      exfalso
      rw [dhas, idFixKvs_frame st kvs (by decide), hnone] at hp
      simp at hp
    · intro p hsome
      have hpd : (dget (idFixKvs st kvs) "params").getD .null = p := by
        rw [idFixKvs_frame st kvs (by decide), hsome]
        rfl
      rw [hpd] at hfix
      obtain ⟨hiso, hfr⟩ := fixParams_frame hfix
      refine ⟨p2, ?_, hiso, hfr⟩
      simp only [pget]
      exact dget_dset_self _ _ _

/-- Each output component of the loop comes from an ok run of
`processComponent` on the corresponding input component. -/
theorem processComponents_rel :
    ∀ (xs : List JVal) (st : List (JVal × Nat)) (xs' : List JVal)
      (iss : List String), processComponents st xs = .ok (xs', iss) →
      List.Forall₂ (fun c c' => ∃ st₀ st₁ iss₀,
        processComponent st₀ c = .ok (c', st₁, iss₀)) xs xs' := by
  intro xs
  induction xs with
  | nil =>
    intro st xs' iss h
    simp only [processComponents, Except.ok.injEq, Prod.mk.injEq] at h
    rw [← h.1]
    exact .nil
  | cons c rest ih =>
    intro st xs' iss h
    obtain ⟨c₀, st1, iss1, rest', iss2, hpc, hrest, hxs, _⟩ :=
      processComponents_cons_elim h
    subst hxs
    exact .cons ⟨st, st1, iss1, hpc⟩ (ih st1 rest' iss2 hrest)

/-- **C8, amended.**  On every document `validate_and_fix_json` accepts,
every top-level key other than `components` (in particular the `laser`
root) keeps its value; the output components correspond one-to-one, in
order, to the input components, and each output component keeps every
top-level key other than `id` and `params` and every param key other
than the six targeted ones `alpha_deg`, `component_rotated`, `f_m`,
`f_um`, `type`, `lensType` (so e.g. position coordinates are preserved).
The spec's exclusion list must also name `f_um` and `lensType`, which
the lens rules overwrite. -/
theorem C8_frame :
    ∀ (d d' : JVal) (iss : List String),
      validate_and_fix_json d = .ok (some d', iss) →
      ∃ kvs kvs', d = .obj kvs ∧ d' = .obj kvs' ∧
        (∀ k, k ≠ "components" → dget kvs' k = dget kvs k) ∧
        dget kvs' "laser" = dget kvs "laser" ∧
        (∀ xs, dget kvs "components" = some (.arr xs) →
          ∃ xs', dget kvs' "components" = some (.arr xs') ∧
            List.Forall₂ (fun c c' =>
              (∀ k, k ≠ "id" → k ≠ "params" → pget c' k = pget c k) ∧
              (∀ p, pget c "params" = some p →
                ∃ p', pget c' "params" = some p' ∧
                  ∀ k, k ≠ "alpha_deg" → k ≠ "component_rotated" →
                    k ≠ "f_m" → k ≠ "f_um" → k ≠ "type" →
                    k ≠ "lensType" → pget p' k = pget p k)) xs xs') := by
  intro d d' iss h
  obtain ⟨kvs, rfl⟩ := validate_ok_some_obj h
  by_cases hl : dhas kvs "laser" = true
  · cases hc : dget kvs "components" with
    | none =>
      rw [validate_obj_insert hl hc] at h
      simp only [Except.ok.injEq, Prod.mk.injEq, Option.some.injEq] at h
      refine ⟨kvs, dset kvs "components" (.arr []), rfl, h.1.symm, ?_, ?_, ?_⟩
      · intro k hk
        exact dget_dset_ne _ _ hk
      · exact dget_dset_ne _ _ (by decide)
      · intro xs hxs
        rw [hc] at hxs
        simp at hxs
    | some v0 =>
      by_cases hv0 : isArrB v0 = true
      · obtain ⟨xs, rfl⟩ : ∃ xs, v0 = .arr xs := by
          cases v0 <;> simp [isArrB] at hv0 <;> exact ⟨_, rfl⟩
        rw [validate_obj_arr hl hc] at h
        cases hp : processComponents [] xs with
        | error e => rw [hp] at h; simp at h
        | ok pr =>
          obtain ⟨xs', iss1⟩ := pr
          rw [hp] at h
          simp only [Except.ok.injEq, Prod.mk.injEq, Option.some.injEq] at h
          refine ⟨kvs, dset kvs "components" (.arr xs'), rfl, h.1.symm,
            ?_, ?_, ?_⟩
          · intro k hk
            exact dget_dset_ne _ _ hk
          · exact dget_dset_ne _ _ (by decide)
          · intro ys hys
            rw [hc] at hys
            obtain rfl : xs = ys := by simpa using hys
            refine ⟨xs', dget_dset_self _ _ _, ?_⟩
            have hrel := processComponents_rel xs [] xs' iss1 hp
            refine List.Forall₂.imp ?_ hrel
            intro c c' hcc
            obtain ⟨st₀, st₁, iss₀, hpc⟩ := hcc
            obtain ⟨kvs₀, rfl⟩ := processComponent_ok_obj hpc
            obtain ⟨h1, _, h3⟩ := processComponent_frame hpc
            constructor
            · intro k hk1 hk2
              rw [h1 k hk1 hk2]
              rfl
            · intro p hpin
              obtain ⟨p', hp', _, hfr⟩ := h3 p hpin
              exact ⟨p', hp', hfr⟩
      · obtain ⟨hd', _, _⟩ := validate_obj_nonarr_ok hl hc (by simpa using hv0) h
        subst hd'
        refine ⟨kvs, kvs, rfl, rfl, fun k _ => rfl, rfl, ?_⟩
        intro xs hxs
        rw [hc] at hxs
        obtain rfl : v0 = .arr xs := by simpa using hxs
        simp [isArrB] at hv0
  · rw [validate_noLaser (by simpa using hl)] at h
    simp at h

/-- Witness for C8: a concrete run (id fixed, `alpha_deg` removed) in
which the laser object, a top-level `pos` key, and a `position` param all
survive unchanged. -/
theorem C8_frame_witness :
    ∃ kvs kvs',
      JVal.obj [("laser", .obj [("power", .int 5)]),
        ("components", .arr [.obj [("type", .str "mirror"),
          ("id", .str "mirror_7"), ("pos", .arr [.int 1, .int 2]),
          ("params", .obj [("position", .arr [.int 3]),
                           ("alpha_deg", .int 9)])]])] = .obj kvs ∧
      JVal.obj [("laser", .obj [("power", .int 5)]),
        ("components", .arr [.obj [("type", .str "mirror"),
          ("id", .str "mirror_1"), ("pos", .arr [.int 1, .int 2]),
          ("params", .obj [("position", .arr [.int 3])])]])] = .obj kvs' ∧
      (∀ k, k ≠ "components" → dget kvs' k = dget kvs k) ∧
      dget kvs' "laser" = dget kvs "laser" ∧
      (∀ xs, dget kvs "components" = some (.arr xs) →
        ∃ xs', dget kvs' "components" = some (.arr xs') ∧
          List.Forall₂ (fun c c' =>
            (∀ k, k ≠ "id" → k ≠ "params" → pget c' k = pget c k) ∧
            (∀ p, pget c "params" = some p →
              ∃ p', pget c' "params" = some p' ∧
                ∀ k, k ≠ "alpha_deg" → k ≠ "component_rotated" →
                  k ≠ "f_m" → k ≠ "f_um" → k ≠ "type" →
                  k ≠ "lensType" → pget p' k = pget p k)) xs xs') :=
  C8_frame _ _
    ["Fixed ID: mirror_7 → mirror_1", "Removed alpha_deg from mirror_1"]
    (by with_unfolding_all rfl)

/-- After `fixAlpha` the params carry no `alpha_deg` key (given distinct
keys, which `json.loads` guarantees). -/
theorem fixAlpha_gone {cid : String} {p p' : JVal} {iss : List String}
    (h : fixAlpha cid p = .ok (p', iss))
    (hnd : ∀ l, p = .obj l → keysNodupB l = true) :
    pget p' "alpha_deg" = none := by
  by_cases hobj : isObjB p = true
  · obtain ⟨l, rfl⟩ := (isObjB_eq_true_iff p).mp hobj
    rw [fixAlpha_obj] at h
    by_cases hd : dhas l "alpha_deg" = true
    · rw [if_pos hd] at h
      simp only [Except.ok.injEq, Prod.mk.injEq] at h
      rw [← h.1]
      simp only [pget]
      exact dget_ddel_self (hnd l rfl)
    · rw [if_neg hd] at h
      simp only [Except.ok.injEq, Prod.mk.injEq] at h
      rw [← h.1]
      simp only [pget]
      cases hg : dget l "alpha_deg" with
      | none => rfl
      | some w => exact absurd (by simp [dhas, hg]) hd
  · obtain ⟨hp, _⟩ := fixAlpha_ok_nonobj h (by simpa using hobj)
    rw [hp]
    cases p <;> simp_all [pget, isObjB]

/-- After the whole params-repair chain the params carry no `alpha_deg`
key. -/
theorem fixParams_alpha_gone {t : JVal} {cid : String} {p p3 : JVal}
    {iss : List String} (h : fixParams t cid p = .ok (p3, iss))
    (hnd : ∀ l, p = .obj l → keysNodupB l = true) :
    pget p3 "alpha_deg" = none := by
  unfold fixParams at h
  split at h
  · simp at h
  · rename_i p1 a ha
    split at h
    · simp at h
    · rename_i p2 b hb
      split at h
      · simp at h
      · rename_i p3' c hc
        simp only [Except.ok.injEq, Prod.mk.injEq] at h
        rw [← h.1]
        rw [(fixLens_frame hc).2 "alpha_deg" (by decide) (by decide)
          (by decide) (by decide)]
        rw [(fixRotation_frame hb).2 "alpha_deg" (by decide)]
        exact fixAlpha_gone ha hnd

/-- A repaired component's params carry no `alpha_deg` key. -/
theorem processComponent_alpha_gone {st : List (JVal × Nat)}
    {kvs : List (String × JVal)} {c' : JVal} {st' : List (JVal × Nat)}
    {iss : List String}
    (h : processComponent st (.obj kvs) = .ok (c', st', iss))
    (hwf : compWF (.obj kvs) = true) :
    ∀ p', pget c' "params" = some p' → pget p' "alpha_deg" = none := by
  intro p' hp'
  obtain ⟨_, _, hcase⟩ := processComponent_parts h
  rcases hcase with ⟨hnp, hc, _⟩ | ⟨p2, iss2, hp, hfix, hc, _⟩
  · subst hc
    exfalso
    simp only [pget] at hp'
    rw [dhas, hp'] at hnp
    simp at hnp
  · subst hc
    simp only [pget] at hp'
    rw [dget_dset_self] at hp'
    obtain rfl : p2 = p' := by simpa using hp'
    refine fixParams_alpha_gone hfix ?_
    intro l hl
    simp only [compWF, Bool.and_eq_true] at hwf
    have hg : dget (idFixKvs st kvs) "params" = dget kvs "params" :=
      idFixKvs_frame st kvs (by decide)
    rw [hg] at hl
    cases hgk : dget kvs "params" with
    | none => rw [hgk] at hl; simp at hl
    | some pv =>
      rw [hgk] at hl
      obtain rfl : pv = .obj l := by simpa using hl
      have := hwf.2
      rw [hgk] at this
      exact this

/-- Tack a per-element property on the left of a `Forall₂`. -/
theorem forall₂_and_left {R : JVal → JVal → Prop} {P : JVal → Prop} :
    ∀ {xs xs' : List JVal}, List.Forall₂ R xs xs' → (∀ c ∈ xs, P c) →
      List.Forall₂ (fun c c' => P c ∧ R c c') xs xs' := by
  intro xs xs' h hP
  induction h with
  | nil => exact .nil
  | cons hr _ ih =>
    exact .cons ⟨hP _ (List.mem_cons_self _ _), hr⟩
      (ih fun c hc => hP c (List.mem_cons_of_mem _ hc))

/-- **C9.**  On every well-formed document `validate_and_fix_json`
accepts, the output components carry no `alpha_deg` param, while the
other derived fields forbidden by the prompt — `debugAlpha`, `readings`,
`totalPower` — are never removed: they keep their input values. -/
theorem C9_alpha_only :
    ∀ (d d' : JVal) (iss : List String) (xs : List JVal),
      docWF d = true →
      validate_and_fix_json d = .ok (some d', iss) →
      pget d "components" = some (.arr xs) →
      ∃ xs', pget d' "components" = some (.arr xs') ∧
        List.Forall₂ (fun c c' =>
          ∀ p, pget c "params" = some p →
            ∃ p', pget c' "params" = some p' ∧
              pget p' "alpha_deg" = none ∧
              pget p' "debugAlpha" = pget p "debugAlpha" ∧
              pget p' "readings" = pget p "readings" ∧
              pget p' "totalPower" = pget p "totalPower") xs xs' := by
  intro d d' iss xs hwf h hcomp
  obtain ⟨kvs, rfl⟩ := validate_ok_some_obj h
  have hc : dget kvs "components" = some (.arr xs) := hcomp
  by_cases hl : dhas kvs "laser" = true
  · rw [validate_obj_arr hl hc] at h
    cases hp : processComponents [] xs with
    | error e => rw [hp] at h; simp at h
    | ok pr =>
      obtain ⟨xs', iss1⟩ := pr
      rw [hp] at h
      simp only [Except.ok.injEq, Prod.mk.injEq, Option.some.injEq] at h
      have hall : ∀ c ∈ xs, compWF c = true := by
        simp only [docWF, hc, Bool.and_eq_true] at hwf
        simpa using hwf.2
      have hrel2 := forall₂_and_left (processComponents_rel xs [] xs' iss1 hp)
        hall
      refine ⟨xs', ?_, ?_⟩
      · rw [← h.1]
        simp only [pget]
        exact dget_dset_self _ _ _
      · refine List.Forall₂.imp ?_ hrel2
        intro c c' hcc
        obtain ⟨hcwf, st₀, st₁, iss₀, hpc⟩ := hcc
        obtain ⟨kvs₀, rfl⟩ := processComponent_ok_obj hpc
        obtain ⟨_, _, h3⟩ := processComponent_frame hpc
        have hgone := processComponent_alpha_gone hpc hcwf
        intro p hpin
        obtain ⟨p', hp', _, hfr⟩ := h3 p hpin
        exact ⟨p', hp', hgone p' hp',
          hfr "debugAlpha" (by decide) (by decide) (by decide) (by decide)
            (by decide) (by decide),
          hfr "readings" (by decide) (by decide) (by decide) (by decide)
            (by decide) (by decide),
          hfr "totalPower" (by decide) (by decide) (by decide) (by decide)
            (by decide) (by decide)⟩
  · rw [validate_noLaser (by simpa using hl)] at h
    simp at h

/-- Witness for C9: a concrete run in which `alpha_deg` is stripped while
`debugAlpha`, `readings` and `totalPower` survive with their values. -/
theorem C9_alpha_only_witness :
    ∃ xs', pget (JVal.obj [("laser", .obj []),
        ("components", .arr [.obj [("type", .str "mirror"),
          ("id", .str "mirror_1"),
          ("params", .obj [("debugAlpha", .int 7), ("readings", .arr []),
            ("totalPower", .float 3)])]])]) "components" =
          some (.arr xs') ∧
      List.Forall₂ (fun c c' =>
        ∀ p, pget c "params" = some p →
          ∃ p', pget c' "params" = some p' ∧
            pget p' "alpha_deg" = none ∧
            pget p' "debugAlpha" = pget p "debugAlpha" ∧
            pget p' "readings" = pget p "readings" ∧
            pget p' "totalPower" = pget p "totalPower")
        [.obj [("type", .str "mirror"), ("id", .str "mirror_1"),
          ("params", .obj [("alpha_deg", .int 5), ("debugAlpha", .int 7),
            ("readings", .arr []), ("totalPower", .float 3)])]] xs' :=
  C9_alpha_only
    (.obj [("laser", .obj []),
        ("components", .arr [.obj [("type", .str "mirror"),
          ("id", .str "mirror_1"),
          ("params", .obj [("alpha_deg", .int 5), ("debugAlpha", .int 7),
            ("readings", .arr []), ("totalPower", .float 3)])]])])
    (.obj [("laser", .obj []),
        ("components", .arr [.obj [("type", .str "mirror"),
          ("id", .str "mirror_1"),
          ("params", .obj [("debugAlpha", .int 7), ("readings", .arr []),
            ("totalPower", .float 3)])]])])
    ["Removed alpha_deg from mirror_1"]
    [.obj [("type", .str "mirror"), ("id", .str "mirror_1"),
      ("params", .obj [("alpha_deg", .int 5), ("debugAlpha", .int 7),
        ("readings", .arr []), ("totalPower", .float 3)])]]
    (by rfl) (by with_unfolding_all rfl) (by rfl)

/-- `fixAlpha` preserves distinct keys. -/
theorem fixAlpha_nodup {cid : String} {l : List (String × JVal)} {p' : JVal}
    {iss : List String} (h : fixAlpha cid (.obj l) = .ok (p', iss))
    (hnd : keysNodupB l = true) :
    ∃ l', p' = .obj l' ∧ keysNodupB l' = true := by
  rw [fixAlpha_obj] at h
  by_cases hd : dhas l "alpha_deg" = true
  · rw [if_pos hd] at h
    simp only [Except.ok.injEq, Prod.mk.injEq] at h
    exact ⟨_, h.1.symm, keysNodupB_ddel _ hnd⟩
  · rw [if_neg hd] at h
    simp only [Except.ok.injEq, Prod.mk.injEq] at h
    exact ⟨l, h.1.symm, hnd⟩

/-- `fixRotation` preserves distinct keys. -/
theorem fixRotation_nodup {cid : String} {l : List (String × JVal)}
    {p' : JVal} {iss : List String}
    (h : fixRotation cid (.obj l) = .ok (p', iss))
    (hnd : keysNodupB l = true) :
    ∃ l', p' = .obj l' ∧ keysNodupB l' = true := by
  rw [fixRotation_obj] at h
  split at h
  · simp only [Except.ok.injEq, Prod.mk.injEq] at h
    exact ⟨l, h.1.symm, hnd⟩
  · split at h
    · split at h
      · simp only [Except.ok.injEq, Prod.mk.injEq] at h
        exact ⟨_, h.1.symm, keysNodupB_dset _ _ hnd⟩
      · simp only [Except.ok.injEq, Prod.mk.injEq] at h
        exact ⟨l, h.1.symm, hnd⟩
    · simp only [Except.ok.injEq, Prod.mk.injEq] at h
      exact ⟨l, h.1.symm, hnd⟩

/-- `fixFm` preserves distinct keys. -/
theorem fixFm_nodup {cid : String} {l : List (String × JVal)} {p' : JVal}
    {iss : List String} (h : fixFm cid (.obj l) = .ok (p', iss))
    (hnd : keysNodupB l = true) :
    ∃ l', p' = .obj l' ∧ keysNodupB l' = true := by
  rw [fixFm_obj] at h
  split at h
  · simp only [Except.ok.injEq, Prod.mk.injEq] at h
    exact ⟨l, h.1.symm, hnd⟩
  · split at h
    · simp at h
    · split at h
      · simp at h
      · simp only [Except.ok.injEq, Prod.mk.injEq] at h
        exact ⟨_, h.1.symm, keysNodupB_ddel _ (keysNodupB_dset _ _ hnd)⟩

/-- `fixLensType` preserves distinct keys. -/
theorem fixLensType_nodup {cid : String} {l : List (String × JVal)}
    {p' : JVal} {iss : List String}
    (h : fixLensType cid (.obj l) = .ok (p', iss))
    (hnd : keysNodupB l = true) :
    ∃ l', p' = .obj l' ∧ keysNodupB l' = true := by
  rw [fixLensType_obj] at h
  split at h
  · simp only [Except.ok.injEq, Prod.mk.injEq] at h
    exact ⟨l, h.1.symm, hnd⟩
  · split at h
    · simp only [Except.ok.injEq, Prod.mk.injEq] at h
      exact ⟨l, h.1.symm, hnd⟩
    · simp only [Except.ok.injEq, Prod.mk.injEq] at h
      exact ⟨_, h.1.symm, keysNodupB_ddel _ (keysNodupB_dset _ _ hnd)⟩

/-- After `fixFm` (on a dict with distinct keys) the legacy `f_m` key is
gone. -/
theorem fixFm_gone {cid : String} {l : List (String × JVal)} {p' : JVal}
    {iss : List String} (h : fixFm cid (.obj l) = .ok (p', iss))
    (hnd : keysNodupB l = true) : pget p' "f_m" = none := by
  rw [fixFm_obj] at h
  split at h
  · rename_i hr
    simp only [Except.ok.injEq, Prod.mk.injEq] at h
    rw [← h.1]
    simp only [pget]
    exact hr
  · split at h
    · simp at h
    · split at h
      · simp at h
      · simp only [Except.ok.injEq, Prod.mk.injEq] at h
        rw [← h.1]
        simp only [pget]
        exact dget_ddel_self (keysNodupB_dset _ _ hnd)

/-- After `fixRotation`, the rotation value (if any) either is an
int/bool member of the permitted list or is non-numeric. -/
theorem fixRotation_post {cid : String} {l : List (String × JVal)}
    {p' : JVal} {iss : List String}
    (h : fixRotation cid (.obj l) = .ok (p', iss)) :
    ∀ v, pget p' "component_rotated" = some v →
      (isInstInt v = true ∧ pyInRotList v = true) ∨ jnumToQ v = none := by
  intro v hv
  rw [fixRotation_obj] at h
  split at h
  · rename_i hr
    simp only [Except.ok.injEq, Prod.mk.injEq] at h
    rw [← h.1] at hv
    simp only [pget] at hv
    rw [hr] at hv
    simp at hv
  · rename_i rotation hr
    split at h
    · split at h
      · rename_i q hq
        simp only [Except.ok.injEq, Prod.mk.injEq] at h
        rw [← h.1] at hv
        simp only [pget] at hv
        rw [dget_dset_self] at hv
        obtain rfl : JVal.int (closestRotation (pyMod360 q)) = v := by
          simpa using hv
        exact .inl ⟨rfl, pyInRotList_closest _⟩
      · rename_i hq
        simp only [Except.ok.injEq, Prod.mk.injEq] at h
        rw [← h.1] at hv
        simp only [pget] at hv
        rw [hr] at hv
        obtain rfl : rotation = v := by simpa using hv
        exact .inr hq
    · rename_i hguard
      simp only [Except.ok.injEq, Prod.mk.injEq] at h
      rw [← h.1] at hv
      simp only [pget] at hv
      rw [hr] at hv
      obtain rfl : rotation = v := by simpa using hv
      simp only [Bool.or_eq_true, Bool.not_eq_true', not_or,
        Bool.not_eq_false] at hguard
      exact .inl hguard

/-- After `fixLensType`, either there is no `type` param or `lensType` is
present — in both cases the rename is disarmed. -/
theorem fixLensType_post {cid : String} {l : List (String × JVal)}
    {p' : JVal} {iss : List String}
    (h : fixLensType cid (.obj l) = .ok (p', iss)) :
    ∃ l', p' = .obj l' ∧
      (dget l' "type" = none ∨ dhas l' "lensType" = true) := by
  rw [fixLensType_obj] at h
  split at h
  · rename_i hr
    simp only [Except.ok.injEq, Prod.mk.injEq] at h
    exact ⟨l, h.1.symm, .inl hr⟩
  · rename_i tv hr
    split at h
    · rename_i hl
      simp only [Except.ok.injEq, Prod.mk.injEq] at h
      exact ⟨l, h.1.symm, .inr hl⟩
    · simp only [Except.ok.injEq, Prod.mk.injEq] at h
      refine ⟨_, h.1.symm, .inr ?_⟩
      simp only [dhas]
      rw [dget_ddel_ne _ (by decide), dget_dset_self]
      rfl

/-- `fixAlpha` is a no-op on a dict without `alpha_deg`. -/
theorem fixAlpha_skip (cid : String) {l : List (String × JVal)}
    (h : dget l "alpha_deg" = none) :
    fixAlpha cid (.obj l) = .ok (.obj l, []) := by
  rw [fixAlpha_obj]
  simp [dhas, h]

/-- `fixRotation` is a no-op on a dict whose rotation is already fixed. -/
theorem fixRotation_skip (cid : String) {l : List (String × JVal)}
    (h : ∀ v, dget l "component_rotated" = some v →
      (isInstInt v = true ∧ pyInRotList v = true) ∨ jnumToQ v = none) :
    fixRotation cid (.obj l) = .ok (.obj l, []) := by
  rw [fixRotation_obj]
  cases hr : dget l "component_rotated" with
  | none => simp
  | some v =>
    simp only
    rcases h v hr with ⟨h1, h2⟩ | hq
    · simp [h1, h2]
    · simp [hq]

/-- `fixFm` is a no-op on a dict without `f_m`. -/
theorem fixFm_skip (cid : String) {l : List (String × JVal)}
    (h : dget l "f_m" = none) : fixFm cid (.obj l) = .ok (.obj l, []) := by
  rw [fixFm_obj, h]

/-- `fixLensType` is a no-op when `type` is absent or `lensType` is
present. -/
theorem fixLensType_skip (cid : String) {l : List (String × JVal)}
    (h : dget l "type" = none ∨ dhas l "lensType" = true) :
    fixLensType cid (.obj l) = .ok (.obj l, []) := by
  rw [fixLensType_obj]
  rcases h with h | h
  · rw [h]
  · cases hr : dget l "type" with
    | none => rfl
    | some tv => simp only [h, if_true]

/-- The params-repair chain is idempotent: re-running it on its own
output changes nothing and logs nothing. -/
theorem fixParams_idem {t : JVal} {cid : String} {p p3 : JVal}
    {iss : List String} (h : fixParams t cid p = .ok (p3, iss))
    (hnd : ∀ l, p = .obj l → keysNodupB l = true) :
    fixParams t cid p3 = .ok (p3, []) := by
  by_cases hobj : isObjB p = true
  · obtain ⟨l, rfl⟩ := (isObjB_eq_true_iff p).mp hobj
    have hndl : keysNodupB l = true := hnd l rfl
    unfold fixParams at h
    split at h
    · simp at h
    · rename_i p1 a ha
      split at h
      · simp at h
      · rename_i p2 b hb
        split at h
        · simp at h
        · rename_i p3' c hc
          simp only [Except.ok.injEq, Prod.mk.injEq] at h
          obtain ⟨rfl, -⟩ := h
          obtain ⟨l1, rfl, hnd1⟩ := fixAlpha_nodup ha hndl
          obtain ⟨l2, rfl, hnd2⟩ := fixRotation_nodup hb hnd1
          have ha1 : pget (.obj l1) "alpha_deg" = none :=
            fixAlpha_gone ha (by intro l' hl'; cases hl'; exact hndl)
          have ha2 := (fixRotation_frame hb).2 "alpha_deg" (by decide)
          by_cases hlens : pyEq t (.str "lens") = true
          · rw [fixLens_lens hlens] at hc
            split at hc
            · simp at hc
            · rename_i q1 a1 hf
              split at hc
              · simp at hc
              · rename_i q2 b1 hlt
                simp only [Except.ok.injEq, Prod.mk.injEq] at hc
                obtain ⟨rfl, -⟩ := hc
                obtain ⟨lf, rfl, hndf⟩ := fixFm_nodup hf hnd2
                obtain ⟨l3, rfl, hnd3⟩ := fixLensType_nodup hlt hndf
                have ha3 := (fixFm_frame hf).2 "alpha_deg" (by decide)
                  (by decide)
                have ha4 := (fixLensType_frame hlt).2 "alpha_deg"
                  (by decide) (by decide)
                have halpha3 : dget l3 "alpha_deg" = none := by
                  simp only [pget] at ha1 ha2 ha3 ha4
                  rw [ha4, ha3, ha2]
                  exact ha1
                have hr3 := (fixFm_frame hf).2 "component_rotated"
                  (by decide) (by decide)
                have hr4 := (fixLensType_frame hlt).2 "component_rotated"
                  (by decide) (by decide)
                have hrot3 : ∀ v, dget l3 "component_rotated" = some v →
                    (isInstInt v = true ∧ pyInRotList v = true) ∨
                      jnumToQ v = none := by
                  intro v hv
                  refine fixRotation_post hb v ?_
                  simp only [pget] at hr3 hr4 ⊢
                  rw [← hr3, ← hr4]
                  exact hv
                have hfm_f : pget (.obj lf) "f_m" = none :=
                  fixFm_gone hf hnd2
                have hfm3 : dget l3 "f_m" = none := by
                  have hh := (fixLensType_frame hlt).2 "f_m" (by decide)
                    (by decide)
                  simp only [pget] at hh hfm_f
                  rw [hh]
                  exact hfm_f
                obtain ⟨l3', he, hpost⟩ := fixLensType_post hlt
                have he' : l3 = l3' := by injection he
                subst he'
                have e3 : fixLens t cid (.obj l3) = .ok (.obj l3, []) := by
                  rw [fixLens_lens hlens]
                  simp only [fixFm_skip cid hfm3,
                    fixLensType_skip cid hpost, List.append_nil]
                unfold fixParams
                simp only [fixAlpha_skip cid halpha3,
                  fixRotation_skip cid hrot3, e3, List.append_nil]
          · rw [fixLens_not_lens cid _ (by simpa using hlens)] at hc
            simp only [Except.ok.injEq, Prod.mk.injEq] at hc
            obtain ⟨rfl, -⟩ := hc
            have halpha2 : dget l2 "alpha_deg" = none := by
              simp only [pget] at ha1 ha2
              rw [ha2]
              exact ha1
            have hrot2 : ∀ v, dget l2 "component_rotated" = some v →
                (isInstInt v = true ∧ pyInRotList v = true) ∨
                  jnumToQ v = none := by
              intro v hv
              exact fixRotation_post hb v hv
            have e3 : fixLens t cid (.obj l2) = .ok (.obj l2, []) :=
              fixLens_not_lens cid _ (by simpa using hlens)
            unfold fixParams
            simp only [fixAlpha_skip cid halpha2,
              fixRotation_skip cid hrot2, e3, List.append_nil]
  · have hne : isObjB p = false := by simpa using hobj
    unfold fixParams at h
    split at h
    · simp at h
    · rename_i p1 a ha
      split at h
      · simp at h
      · rename_i p2 b hb
        split at h
        · simp at h
        · rename_i p3' c hc
          simp only [Except.ok.injEq, Prod.mk.injEq] at h
          obtain ⟨rfl, -⟩ := h
          obtain ⟨rfl, rfl⟩ := fixAlpha_ok_nonobj ha hne
          obtain ⟨rfl, rfl⟩ := fixRotation_ok_nonobj hb hne
          obtain ⟨rfl, rfl⟩ := fixLens_ok_nonobj hc hne
          unfold fixParams
          simp only [ha, hb, hc, List.append_nil]

/-- The id fix is a no-op on a component already carrying the expected
id. -/
theorem idFix_noop {st : List (JVal × Nat)} {kvs₁ : List (String × JVal)}
    (hid : dget kvs₁ "id" = some (.str (expectedIdOf st kvs₁))) :
    idFixKvs st kvs₁ = kvs₁ ∧ idFixIss st kvs₁ = [] := by
  unfold idFixKvs idFixIss
  rw [hid]
  simp [pyEq_str_self]

/-- One loop iteration is idempotent: re-running it (from the same
counter state) on its own output returns the output unchanged, the same
counters, and no messages. -/
theorem processComponent_idem {st : List (JVal × Nat)}
    {kvs : List (String × JVal)} {c' : JVal} {st' : List (JVal × Nat)}
    {iss : List String}
    (h : processComponent st (.obj kvs) = .ok (c', st', iss))
    (hwf : compWF (.obj kvs) = true) :
    processComponent st c' = .ok (c', st', []) := by
  obtain ⟨hhash, hst, hcase⟩ := processComponent_parts h
  rcases hcase with ⟨hnp, hc, -⟩ | ⟨p2, iss2, hp, hfix, hc, -⟩
  · subst hc
    have hT : compTypeOf (idFixKvs st kvs) = compTypeOf kvs := by
      unfold compTypeOf
      rw [idFixKvs_frame st kvs (by decide)]
    have hE : expectedIdOf st (idFixKvs st kvs) = expectedIdOf st kvs := by
      unfold expectedIdOf
      rw [hT]
    have hid : dget (idFixKvs st kvs) "id" =
        some (.str (expectedIdOf st (idFixKvs st kvs))) := by
      rw [hE]
      exact idFixKvs_id st kvs
    obtain ⟨hnoop, hnoiss⟩ := idFix_noop hid
    rw [processComponent_obj_eq, hT, hnoop, hst]
    simp only [hhash, if_true, hnp, Bool.false_eq_true, if_false, hnoiss]
  · subst hc
    have hT : compTypeOf (dset (idFixKvs st kvs) "params" p2) =
        compTypeOf kvs := by
      unfold compTypeOf
      rw [dget_dset_ne _ _ (by decide), idFixKvs_frame st kvs (by decide)]
    have hE : expectedIdOf st (dset (idFixKvs st kvs) "params" p2) =
        expectedIdOf st kvs := by
      unfold expectedIdOf
      rw [hT]
    have hid : dget (dset (idFixKvs st kvs) "params" p2) "id" =
        some (.str (expectedIdOf st
          (dset (idFixKvs st kvs) "params" p2))) := by
      rw [hE, dget_dset_ne _ _ (by decide)]
      exact idFixKvs_id st kvs
    obtain ⟨hnoop, hnoiss⟩ := idFix_noop hid
    have hgp : dget (dset (idFixKvs st kvs) "params" p2) "params" =
        some p2 := dget_dset_self _ _ _
    have hdh : dhas (dset (idFixKvs st kvs) "params" p2) "params" =
        true := by
      simp [dhas, hgp]
    have hndin : ∀ l,
        (dget (idFixKvs st kvs) "params").getD .null = .obj l →
        keysNodupB l = true := by
      intro l hl
      simp only [compWF, Bool.and_eq_true] at hwf
      rw [idFixKvs_frame st kvs (by decide)] at hl
      cases hgk : dget kvs "params" with
      | none => rw [hgk] at hl; simp at hl
      | some pv =>
        rw [hgk] at hl
        obtain rfl : pv = .obj l := by simpa using hl
        have h2 := hwf.2
        rw [hgk] at h2
        exact h2
    have hfix2 : fixParams (compTypeOf kvs) (expectedIdOf st kvs) p2 =
        .ok (p2, []) := fixParams_idem hfix hndin
    have hcollapse : dset (dset (idFixKvs st kvs) "params" p2) "params"
        p2 = dset (idFixKvs st kvs) "params" p2 := dset_eq_of_dget hgp
    rw [processComponent_obj_eq, hT, hnoop, hst]
    simp only [hhash, if_true, hdh, hnoiss, hE, hgp, Option.getD_some,
      hfix2, hcollapse, List.append_nil, List.nil_append]

/-- The whole component loop is idempotent. -/
theorem processComponents_idem :
    ∀ (xs : List JVal) (st : List (JVal × Nat)) (xs' : List JVal)
      (iss : List String), processComponents st xs = .ok (xs', iss) →
      (∀ c ∈ xs, compWF c = true) →
      processComponents st xs' = .ok (xs', []) := by
  intro xs
  induction xs with
  | nil =>
    intro st xs' iss h _
    simp only [processComponents, Except.ok.injEq, Prod.mk.injEq] at h
    rw [← h.1]
    rfl
  | cons c rest ih =>
    intro st xs' iss h hall
    obtain ⟨c₀, st1, iss1, rest', iss2, hpc, hrest, hxs, -⟩ :=
      processComponents_cons_elim h
    subst hxs
    obtain ⟨kvs₀, rfl⟩ := processComponent_ok_obj hpc
    have hidem := processComponent_idem hpc
      (hall _ (List.mem_cons_self _ _))
    have hih := ih st1 rest' iss2 hrest
      fun c hc => hall c (List.mem_cons_of_mem _ hc)
    simp only [processComponents, hidem, hih, List.nil_append]

/-- **C7.**  `validate_and_fix_json` is idempotent on every well-formed
document it accepts: running it again on its own output returns the same
document and an empty issues list. -/
theorem C7_idempotent :
    ∀ (d d' : JVal) (iss : List String),
      docWF d = true →
      validate_and_fix_json d = .ok (some d', iss) →
      validate_and_fix_json d' = .ok (some d', []) := by
  intro d d' iss hwf h
  obtain ⟨kvs, rfl⟩ := validate_ok_some_obj h
  by_cases hl : dhas kvs "laser" = true
  · cases hc : dget kvs "components" with
    | none =>
      rw [validate_obj_insert hl hc] at h
      simp only [Except.ok.injEq, Prod.mk.injEq, Option.some.injEq] at h
      rw [← h.1]
      have hl2 : dhas (dset kvs "components" (.arr [])) "laser" = true := by
        rw [dhas_dset]
        simp [hl]
      have hc2 : dget (dset kvs "components" (.arr [])) "components" =
          some (.arr []) := dget_dset_self _ _ _
      rw [validate_obj_arr hl2 hc2]
      simp only [processComponents, dset_eq_of_dget hc2]
    | some v0 =>
      by_cases hv0 : isArrB v0 = true
      · obtain ⟨xs, rfl⟩ : ∃ xs, v0 = .arr xs := by
          cases v0 <;> simp [isArrB] at hv0 <;> exact ⟨_, rfl⟩
        rw [validate_obj_arr hl hc] at h
        cases hp : processComponents [] xs with
        | error e => rw [hp] at h; simp at h
        | ok pr =>
          obtain ⟨xs', iss1⟩ := pr
          rw [hp] at h
          simp only [Except.ok.injEq, Prod.mk.injEq, Option.some.injEq] at h
          rw [← h.1]
          have hall : ∀ c ∈ xs, compWF c = true := by
            simp only [docWF, hc, Bool.and_eq_true] at hwf
            simpa using hwf.2
          have hidem := processComponents_idem xs [] xs' iss1 hp hall
          have hl2 : dhas (dset kvs "components" (.arr xs')) "laser" =
              true := by
            rw [dhas_dset]
            simp [hl]
          have hc2 : dget (dset kvs "components" (.arr xs')) "components" =
              some (.arr xs') := dget_dset_self _ _ _
          rw [validate_obj_arr hl2 hc2]
          simp only [hidem, dset_eq_of_dget hc2]
      · obtain ⟨hd', hiss, -⟩ :=
          validate_obj_nonarr_ok hl hc (by simpa using hv0) h
        subst hd'
        rw [h, hiss]
  · rw [validate_noLaser (by simpa using hl)] at h
    simp at h

/-- Witness for C7: re-validating the output of the concrete 47-degree
rotation run returns it unchanged with no messages. -/
theorem C7_idempotent_witness :
    validate_and_fix_json
        (.obj [("laser", .int 1),
               ("components", .arr [.obj
                 [("type", .str "mirror"), ("id", .str "mirror_1"),
                  ("params", .obj [("component_rotated", .int 90)])]])]) =
      .ok (some (.obj [("laser", .int 1),
               ("components", .arr [.obj
                 [("type", .str "mirror"), ("id", .str "mirror_1"),
                  ("params", .obj [("component_rotated", .int 90)])]])]),
           []) :=
  C7_idempotent
    (.obj [("laser", .int 1),
           ("components", .arr [.obj
             [("type", .str "mirror"), ("id", .str "mirror_1"),
              ("params", .obj [("component_rotated", .int 47)])]])])
    (.obj [("laser", .int 1),
           ("components", .arr [.obj
             [("type", .str "mirror"), ("id", .str "mirror_1"),
              ("params", .obj [("component_rotated", .int 90)])]])])
    ["Fixed rotation in mirror_1: 47 → 90"]
    (by rfl) (by with_unfolding_all rfl)

/-- **C2, counterexample.**  On the input `"hello world"` the pipeline does
return the default minimal document, but the change log is empty — the
claimed single extraction-failure entry does not exist, because the
fallback inside `extract_json` is silent. -/
theorem C2_counterexample :
    (generate_json "hello world").1 = default_json ∧
      (generate_json "hello world").2 = [] := by
  exact ⟨by with_unfolding_all rfl, by with_unfolding_all rfl⟩

/-- **C2, amended.**  For input text with no recognizable brace-delimited
content (`"hello world"`), the pipeline returns the default minimal
document together with an *empty* change log. -/
theorem C2_hello_world_default :
    generate_json "hello world" = (default_json, []) := by
  with_unfolding_all rfl

/-- **C10.**  The text `"5"` decodes to the number `5`; on it
`validate_and_fix_json` neither fixes the document nor reports a missing
root but raises `TypeError` at the `"laser" not in json_data` membership
test, and only the catch-all of `generate_json` absorbs it into the
default document. -/
theorem C10_non_container_typeerror :
    extract_json "5" = .int 5 ∧
      validate_and_fix_json (.int 5) = .error .typeError ∧
      generate_json "5" =
        (default_json, ["Error occurred: TypeError. Created default JSON."]) := by
  refine ⟨?_, ?_, ?_⟩
  · with_unfolding_all rfl
  · with_unfolding_all rfl
  · with_unfolding_all rfl

/-- **C1, counterexample.**  The parsed input
`{"laser": 1, "components": {}}` survives the pipeline with its
`components` value equal to the *empty dict*, not an array: the claimed
"components array" is not guaranteed.  (An empty dict iterates to
nothing, so the repair loop never raises.) -/
theorem C1_counterexample :
    topField (generate_json "\x7b\"laser\": 1, \"components\": \x7b\x7d\x7d").1
        "components" = some (.obj []) ∧
      isArrB (.obj []) = false := by
  exact ⟨by with_unfolding_all rfl, rfl⟩

/-- **C5, counterexample.**  A *string* rotation value survives
normalization untouched: the claimed closure "every `component_rotated`
value in the output is one of 0/90/180/270 regardless of the type the
input carried" fails, because the fix is guarded by
`isinstance(rotation, (int, float))`. -/
theorem C5_counterexample :
    validate_and_fix_json
        (.obj [("laser", .int 1),
               ("components", .arr [
                 .obj [("type", .str "mirror"), ("id", .str "mirror_1"),
                       ("params", .obj [("component_rotated", .str "45")])]])]) =
      .ok (some
        (.obj [("laser", .int 1),
               ("components", .arr [
                 .obj [("type", .str "mirror"), ("id", .str "mirror_1"),
                       ("params", .obj [("component_rotated", .str "45")])]])]),
        []) ∧
      rotValInSetB (.str "45") = false := by
  exact ⟨by with_unfolding_all rfl, rfl⟩

/-- **C8, counterexample.**  `f_um` is not in the claim's list of fields
that may change, yet it is *overwritten* whenever the legacy `f_m` key is
also present: a lens arriving with `f_m = 1` and `f_um = 7` leaves with
`f_um = 1000000`. -/
theorem C8_counterexample :
    validate_and_fix_json
        (.obj [("laser", .int 1),
               ("components", .arr [
                 .obj [("type", .str "lens"), ("id", .str "lens_1"),
                       ("params", .obj [("f_m", .int 1), ("f_um", .int 7)])]])]) =
      .ok (some
        (.obj [("laser", .int 1),
               ("components", .arr [
                 .obj [("type", .str "lens"), ("id", .str "lens_1"),
                       ("params", .obj [("f_um", .int 1000000)])]])]),
        ["Converted f_m to f_um in lens_1"]) ∧
      JVal.int 1000000 ≠ JVal.int 7 := by
  refine ⟨by with_unfolding_all rfl, by simp⟩

end App1
